import Mathlib

/-!
# The ECS world of `ecs/world.go`

A shallow embedding of `World` (entity map, presence map, ordered system
sequence) and of its operations `New`, `AddEntity`, `RemoveEntity`,
`AddSystem`, `Entities`, `Systems`, `HasSystem` and `Update`.

Conventions of the embedding:

* a Go map is an association list behind an `Option`; `none` is the nil map
  (reads and deletes work on it, a write panics);
* an operation that can panic returns an `Option`, `none` being the panic;
* `*Entity` and `Systemer` values are records carrying the address of the
  object they point to, so two objects with equal attributes stay distinct;
* a method call made on a system is recorded as an event; what the system
  does with it belongs to the system, not to the world;
* `sort.Sort` is library code: it is a parameter of `AddSystem`, constrained
  where needed by the contract its documentation gives (`SortContract`); for
  the order of systems of equal priority, which that contract leaves open,
  the routine itself (pattern-defeating quicksort, Go 1.19 and later) is
  embedded as `GoSort.sort`.
-/

namespace Ecs

/-! ## Go maps with string keys -/

/-- Entries of an allocated Go map. -/
abbrev Entries (V : Type) := List (String × V)

/-- Value stored under `k`, if the key is present (`v, ok := m[k]`). -/
def Entries.get? {V : Type} : Entries V → String → Option V
  | [], _ => none
  | (k', v) :: rest, k => if k' = k then some v else Entries.get? rest k

/-- The assignment `m[k] = v`: overwrite the entry of `k`, or add one. -/
def Entries.set {V : Type} : Entries V → String → V → Entries V
  | [], k, v => [(k, v)]
  | (k', v') :: rest, k, v =>
    if k' = k then (k, v) :: rest else (k', v') :: Entries.set rest k v

/-- The builtin `delete(m, k)`. -/
def Entries.delete {V : Type} (m : Entries V) (k : String) : Entries V :=
  m.filter (fun p => decide (p.1 ≠ k))

/-- A Go map value: `none` is the nil map, `some m` an allocated map. -/
abbrev GoMap (V : Type) := Option (Entries V)

/-- The builtin `make(map[string]V)`. -/
def GoMap.make {V : Type} : GoMap V := some []

/-- Reading `m[k]`; a nil map has no key. -/
def GoMap.get? {V : Type} (m : GoMap V) (k : String) : Option V :=
  match m with
  | none => none
  | some es => es.get? k

/-- Writing `m[k] = v`; `none` is the panic on a nil map. -/
def GoMap.set {V : Type} (m : GoMap V) (k : String) (v : V) : Option (GoMap V) :=
  match m with
  | none => none
  | some es => some (some (es.set k v))

/-- The builtin `delete(m, k)`; a no-op on a nil map. -/
def GoMap.delete {V : Type} (m : GoMap V) (k : String) : GoMap V :=
  match m with
  | none => none
  | some es => some (es.delete k)

/-- The entries a `range` over the map visits (in one of the possible orders). -/
def GoMap.entries {V : Type} (m : GoMap V) : Entries V :=
  match m with
  | none => []
  | some es => es

/-- The builtin `len(m)`. -/
def GoMap.len {V : Type} (m : GoMap V) : Nat := m.entries.length

/-- The keys of the map. -/
def GoMap.keys {V : Type} (m : GoMap V) : List String := m.entries.map Prod.fst

/-- The values of the map. -/
def GoMap.values {V : Type} (m : GoMap V) : List V := m.entries.map Prod.snd

/-! ## Entities and systems -/

/-- Modelled from the spec: the `Entity` type is not part of the given sources.
An entity has an identity `ID` and a fixed list of required system
identifiers; `addr` is the address behind the `*Entity` pointer. -/
structure Entity where
  addr : Nat
  id : String
  requirements : List String
deriving DecidableEq, Repr

/-- Modelled from the spec: `Entity.ID()`, the unique key of the entity. -/
def Entity.ID (e : Entity) : String := e.id

/-- Modelled from the spec: `Entity.Requirements()`, the ordered list of
required system identifiers. -/
def Entity.Requirements (e : Entity) : List String := e.requirements

/-- Modelled from the spec: `Entity.DoesRequire(name)`, the membership test
against the requirement list. -/
def Entity.DoesRequire (e : Entity) (name : String) : Bool :=
  decide (name ∈ e.requirements)

/-- Modelled from the spec: the `Systemer` interface is not part of the given
sources. A system has a stable `Type()`, a `Priority()` and a `RunInParallel()`
flag; `addr` is the address of the object behind the interface value. -/
structure Systemer where
  addr : Nat
  type : String
  priority : Int
  runInParallel : Bool
deriving DecidableEq, Repr

/-- Result of `Systemer.Type()`. -/
def Systemer.Type (s : Systemer) : String := s.type

/-- Result of `Systemer.Priority()`. -/
def Systemer.Priority (s : Systemer) : Int := s.priority

/-- Result of `Systemer.RunInParallel()`. -/
def Systemer.RunInParallel (s : Systemer) : Bool := s.runInParallel

/-- Modelled from the spec: `Systemers.Less(i, j)` is not part of the given
sources; the sequence is ordered by ascending `Priority`. -/
def Systemers.Less (a b : Systemer) : Bool := decide (a.Priority < b.Priority)

/-- The error `UnmetRequirement` of `world.go`. -/
structure UnmetRequirement where
  Msg : String
deriving DecidableEq, Repr

/-- The method `UnmetRequirement.Error`. -/
def UnmetRequirement.Error (e : UnmetRequirement) : String :=
  "world cannot add entity with unmet requirement: " ++ e.Msg

/-- A method call the registry makes on a system. -/
inductive SysCall where
  | New (s : Systemer)
  | AddEntity (s : Systemer) (e : Entity)
  | RemoveEntity (s : Systemer) (e : Entity)
deriving DecidableEq, Repr

/-! ## The world -/

/-- The struct `World`. -/
structure World where
  entities : GoMap Entity
  systemMap : GoMap Systemer
  systems : List Systemer
  isSetup : Bool
  serial : Bool
deriving DecidableEq, Repr

/-- The zero value of `World`: nil maps, nil slice, flags false. -/
def World.zero : World :=
  { entities := none, systemMap := none, systems := [], isSetup := false, serial := false }

/-- The method `World.New`; `numCPU` is the result of `runtime.NumCPU()`. -/
def World.New (numCPU : Nat) (w : World) : World :=
  if w.isSetup then w
  else
    { w with
      entities := GoMap.make
      systemMap := GoMap.make
      serial := if numCPU = 1 then true else false
      isSetup := true }

/-- First loop of `AddEntity`: the first requirement missing from the presence map. -/
def firstMissing (systemMap : GoMap Systemer) : List String → Option String
  | [] => none
  | req :: rest =>
    match systemMap.get? req with
    | none => some req
    | some _ => firstMissing systemMap rest

/-- Second loop of `AddEntity`: calls made on the systems the entity requires. -/
def wireCalls (entity : Entity) : List Systemer → List SysCall
  | [] => []
  | system :: rest =>
    if entity.DoesRequire system.Type then
      SysCall.AddEntity system entity :: wireCalls entity rest
    else wireCalls entity rest

/-- What `AddEntity` leaves behind: the world, the returned error, the calls made. -/
structure AddEntityResult where
  world : World
  err : Option UnmetRequirement
  calls : List SysCall
deriving DecidableEq, Repr

/-- The method `World.AddEntity`; `none` is a panic. -/
def World.AddEntity (w : World) (entity : Entity) : Option AddEntityResult :=
  match w.entities.set entity.ID entity with
  | none => none
  | some entities =>
    let w1 := { w with entities := entities }
    match firstMissing w1.systemMap entity.Requirements with
    | some req => some { world := w1, err := some { Msg := req }, calls := [] }
    | none => some { world := w1, err := none, calls := wireCalls entity w1.systems }

/-- Loop of `RemoveEntity`: calls made on the systems the entity requires. -/
def unwireCalls (entity : Entity) : List Systemer → List SysCall
  | [] => []
  | system :: rest =>
    if entity.DoesRequire system.Type then
      SysCall.RemoveEntity system entity :: unwireCalls entity rest
    else unwireCalls entity rest

/-- The method `World.RemoveEntity`: the world it leaves and the calls made. -/
def World.RemoveEntity (w : World) (entity : Entity) : World × List SysCall :=
  ({ w with entities := w.entities.delete entity.ID }, unwireCalls entity w.systems)

/-- The method `World.AddSystem`, with `sortFn` standing for `sort.Sort` on a
`Systemers` value; `none` is a panic. -/
def World.AddSystem (sortFn : List Systemer → List Systemer) (w : World)
    (system : Systemer) : Option (World × List SysCall) :=
  let calls := [SysCall.New system]
  let w1 := { w with systems := w.systems ++ [system] }
  match w1.systemMap.set system.Type system with
  | none => none
  | some systemMap =>
    let w2 := { w1 with systemMap := systemMap }
    some ({ w2 with systems := sortFn w2.systems }, calls)

/-- Loop of `Entities`: store each visited value at the next index. -/
def fillEntities : Entries Entity → Nat → List (Option Entity) → List (Option Entity)
  | [], _, entities => entities
  | (_, v) :: rest, i, entities => fillEntities rest (i + 1) (entities.set i (some v))

/-- The method `World.Entities`; a slot of the result is `none` when it holds nil. -/
def World.Entities (w : World) : List (Option Entity) :=
  fillEntities w.entities.entries 0 (List.replicate w.entities.len none)

/-- The method `World.Systems`. -/
def World.Systems (w : World) : List Systemer := w.systems

/-- The method `World.HasSystem`. -/
def World.HasSystem (w : World) (systemType : String) : Bool :=
  (w.systemMap.get? systemType).isSome

/-! ## The frame update -/

/-- A hook call the scheduler makes on a system during a frame. -/
inductive FrameCall (Dt : Type) where
  | Pre (s : Systemer)
  | Update (s : Systemer) (e : Entity) (dt : Dt)
  | Post (s : Systemer)
deriving DecidableEq, Repr

/-- What the systems do during a frame. The state `σ` is everything their
hooks can read and write; the hooks are assumed not to change the world's
registry while the frame runs. `schedule` is the order in which the tasks
launched for one system get to run their `Update`, chosen by the runtime. -/
structure Hooks (σ Dt : Type) where
  Pre : Systemer → σ → σ
  Entities : Systemer → σ → List Entity
  Update : Systemer → Entity → Dt → σ → σ
  Post : Systemer → σ → σ
  schedule : Systemer → List Entity → List Entity

/-- Progress of a frame: the systems' state and the hook calls made so far. -/
structure Frame (σ Dt : Type) where
  st : σ
  trace : List (FrameCall Dt)

/-- Make one hook call: record it and apply its effect. -/
def Frame.call {σ Dt : Type} (f : Frame σ Dt) (c : FrameCall Dt) (effect : σ → σ) :
    Frame σ Dt :=
  { st := effect f.st, trace := f.trace ++ [c] }

/-- The serial branch of `Update`: `for _, entity := range entities`. -/
def updateSerial {σ Dt : Type} (h : Hooks σ Dt) (system : Systemer) (dt : Dt) :
    List Entity → Frame σ Dt → Frame σ Dt
  | [], f => f
  | entity :: rest, f =>
    updateSerial h system dt rest
      (f.call (FrameCall.Update system entity dt) (h.Update system entity dt))

/-- The concurrent branch of `Update`: one task per entity, the coordinator
waits for `count` completion signals; the updates happen in the order the
runtime schedules the tasks. -/
def updateConcurrent {σ Dt : Type} (h : Hooks σ Dt) (system : Systemer) (dt : Dt)
    (entities : List Entity) (f : Frame σ Dt) : Frame σ Dt :=
  updateSerial h system dt (h.schedule system entities) f

/-- The loop of `Update` over the system sequence. -/
def updateSystems {σ Dt : Type} (h : Hooks σ Dt) (serial : Bool) (dt : Dt) :
    List Systemer → Frame σ Dt → Frame σ Dt
  | [], f => f
  | system :: rest, f =>
    let f1 := f.call (FrameCall.Pre system) (h.Pre system)
    let entities := h.Entities system f1.st
    let f2 :=
      if serial || !system.RunInParallel then updateSerial h system dt entities f1
      else updateConcurrent h system dt entities f1
    let f3 := f2.call (FrameCall.Post system) (h.Post system)
    updateSystems h serial dt rest f3

/-- The method `World.Update`, started with the systems in state `st`. -/
def World.Update {σ Dt : Type} (h : Hooks σ Dt) (w : World) (dt : Dt) (st : σ) :
    Frame σ Dt :=
  updateSystems h w.serial dt w.Systems { st := st, trace := [] }

/-! ## Sequences of registry calls -/

/-- A call on the world's registry. -/
inductive Op where
  | AddSystem (s : Systemer)
  | AddEntity (e : Entity)
  | RemoveEntity (e : Entity)
deriving DecidableEq, Repr

/-- A world together with every call it has made on its systems, oldest first. -/
structure Config where
  world : World
  calls : List SysCall
deriving DecidableEq, Repr

/-- An initialised empty world: `New` on the zero value, nothing called yet. -/
def Config.init (numCPU : Nat) : Config :=
  { world := World.New numCPU World.zero, calls := [] }

/-- One registry call; `none` is a panic. -/
def Config.step (sortFn : List Systemer → List Systemer) (c : Config) : Op → Option Config
  | Op.AddSystem s =>
    match c.world.AddSystem sortFn s with
    | none => none
    | some (w, calls) => some { world := w, calls := c.calls ++ calls }
  | Op.AddEntity e =>
    match c.world.AddEntity e with
    | none => none
    | some r => some { world := r.world, calls := c.calls ++ r.calls }
  | Op.RemoveEntity e =>
    some { world := (c.world.RemoveEntity e).1, calls := c.calls ++ (c.world.RemoveEntity e).2 }

/-- A sequence of registry calls, first call first. -/
def Config.run (sortFn : List Systemer → List Systemer) : Config → List Op → Option Config
  | c, [] => some c
  | c, op :: rest =>
    match c.step sortFn op with
    | none => none
    | some c1 => Config.run sortFn c1 rest

/-- Modelled from the spec: the concrete systems are not part of the given
sources. One call as seen by a system that tracks entities exactly through its
`AddEntity` and `RemoveEntity` methods. -/
def trackedStep (s : Systemer) (acc : List Entity) : SysCall → List Entity
  | SysCall.New _ => acc
  | SysCall.AddEntity s1 e => if s1 = s then acc ++ [e] else acc
  | SysCall.RemoveEntity s1 e => if s1 = s then acc.filter (fun x => decide (x ≠ e)) else acc

/-- Modelled from the spec: the entities system `s` tracks after the calls. -/
def tracked (s : Systemer) (calls : List SysCall) : List Entity :=
  calls.foldl (trackedStep s) []

/-- The contract of `sort.Sort`: the result holds the same elements and is in
ascending order as determined by `Less`. Nothing is promised about the order
of elements neither of which is `Less` than the other. -/
structure SortContract (sortFn : List Systemer → List Systemer) : Prop where
  perm : ∀ l, (sortFn l).Perm l
  sorted : ∀ l, (sortFn l).Pairwise (fun a b => Systemers.Less b a = false)

/-- An initialised world: `New` has run, both maps are allocated. -/
def World.Initialised (w : World) : Prop :=
  w.isSetup = true ∧ w.entities.isSome = true ∧ w.systemMap.isSome = true

/-- Insertion sort by ascending priority, the first of equal elements first. -/
def stableSort (l : List Systemer) : List Systemer :=
  l.insertionSort (fun a b => a.Priority ≤ b.Priority)

/-- The system a hook call is made on. -/
def FrameCall.system {Dt : Type} : FrameCall Dt → Systemer
  | FrameCall.Pre s => s
  | FrameCall.Update s _ _ => s
  | FrameCall.Post s => s

/-- The bracket of one system in the words of the spec: `Pre`, then one
`Update` per entity of the list in list order, then `Post`. -/
def specBracket {Dt : Type} (s : Systemer) (dt : Dt) (es : List Entity) : List (FrameCall Dt) :=
  [FrameCall.Pre s] ++ es.map (fun e => FrameCall.Update s e dt) ++ [FrameCall.Post s]

/-- State of the systems once the serial bracket of `s` has run from `st`. -/
def afterBracket {σ Dt : Type} (h : Hooks σ Dt) (s : Systemer) (dt : Dt) (st : σ) : σ :=
  h.Post s ((h.Entities s (h.Pre s st)).foldl (fun acc e => h.Update s e dt acc) (h.Pre s st))

/-- The serial frame in the words of the spec: the brackets of the systems in
sequence order, each over the list `Entities()` returns after its `Pre()`. -/
def specSerialFrame {σ Dt : Type} (h : Hooks σ Dt) (dt : Dt) :
    List Systemer → σ → List (FrameCall Dt)
  | [], _ => []
  | s :: rest, st =>
    specBracket s dt (h.Entities s (h.Pre s st)) ++
      specSerialFrame h dt rest (afterBracket h s dt st)

/-- The entities of one system's turn in the order their updates happen. -/
def turnEntities {σ Dt : Type} (h : Hooks σ Dt) (serial : Bool) (s : Systemer) (st : σ) :
    List Entity :=
  if serial || !s.RunInParallel then h.Entities s (h.Pre s st)
  else h.schedule s (h.Entities s (h.Pre s st))

/-- State of the systems after one system's turn. -/
def turnState {σ Dt : Type} (h : Hooks σ Dt) (serial : Bool) (s : Systemer) (dt : Dt)
    (st : σ) : σ :=
  h.Post s ((turnEntities h serial s st).foldl (fun acc e => h.Update s e dt acc) (h.Pre s st))

/-- Hook calls of the loop of `Update` over `l`, started in state `st`. -/
def frameTrace {σ Dt : Type} (h : Hooks σ Dt) (serial : Bool) (dt : Dt) (l : List Systemer)
    (st : σ) : List (FrameCall Dt) :=
  (updateSystems h serial dt l { st := st, trace := [] }).trace

/-- State of the systems after the loop of `Update` over `l`, started in `st`. -/
def frameState {σ Dt : Type} (h : Hooks σ Dt) (serial : Bool) (dt : Dt) (l : List Systemer)
    (st : σ) : σ :=
  (updateSystems h serial dt l { st := st, trace := [] }).st

/-- What every registry call keeps: both maps are allocated, every entry is
stored under the identifier of its value, no key occurs twice, the presence
map and the sequence cover each other, and a system tracks only entities
that require it. -/
structure Config.Inv (c : Config) : Prop where
  allocE : c.world.entities.isSome = true
  allocS : c.world.systemMap.isSome = true
  keyedE : ∀ p ∈ c.world.entities.entries, p.1 = p.2.ID
  keyedS : ∀ p ∈ c.world.systemMap.entries, p.1 = p.2.Type
  nodupE : c.world.entities.keys.Nodup
  nodupS : c.world.systemMap.keys.Nodup
  mapInSeq : ∀ p ∈ c.world.systemMap.entries, p.2 ∈ c.world.systems
  seqInMap : ∀ s ∈ c.world.systems, (c.world.systemMap.get? s.Type).isSome = true
  trackedReq : ∀ s x, x ∈ tracked s c.calls →
    x.DoesRequire s.Type = true ∧ s ∈ c.world.systems

/-- A call that keeps the registry in step: `AddSystem` of a type not yet
registered, `AddEntity` returning no error, any `RemoveEntity`. -/
def Op.admissible (c : Config) : Op → Bool
  | Op.AddSystem s => !c.world.HasSystem s.Type
  | Op.AddEntity e => (firstMissing c.world.systemMap e.Requirements).isNone
  | Op.RemoveEntity _ => true

/-- Every call of the sequence is admissible in the state it is made in. -/
def Config.disciplined (sortFn : List Systemer → List Systemer) : Config → List Op → Bool
  | _, [] => true
  | c, op :: rest =>
    op.admissible c &&
      match c.step sortFn op with
      | none => false
      | some c1 => Config.disciplined sortFn c1 rest

/-- Every entity of the entity map has its requirements registered and is
tracked by every system of the sequence it requires. -/
structure Config.Wired (c : Config) : Prop where
  wired : ∀ p ∈ c.world.entities.entries, ∀ s ∈ c.world.systems,
    p.2.DoesRequire s.Type = true → p.2 ∈ tracked s c.calls
  registered : ∀ p ∈ c.world.entities.entries, ∀ r ∈ p.2.Requirements,
    (c.world.systemMap.get? r).isSome = true

/-- The systems a sequence of registry calls adds, in call order. -/
def addedSystems (ops : List Op) : List Systemer :=
  ops.filterMap (fun op => match op with
    | Op.AddSystem s => some s
    | _ => none)

/-! ## The library routine `sort.Sort` -/

namespace GoSort

/-- The call `data.Less(i, j)` on a `Systemers` value. An index out of range,
a panic in Go, does not occur in the routines below. -/
def less (data : List Systemer) (i j : Nat) : Bool :=
  match data[i]?, data[j]? with
  | some x, some y => Systemers.Less x y
  | _, _ => false

/-- Modelled from the spec: `Systemers.Swap(i, j)` is not part of the given
sources; it exchanges the elements at `i` and `j`. -/
def swap (data : List Systemer) (i j : Nat) : List Systemer :=
  match data[i]?, data[j]? with
  | some x, some y => (data.set i y).set j x
  | _, _ => data

/-- Inner loop of `insertionSort`:
`for j := i; j > a && data.Less(j, j-1); j-- { data.Swap(j, j-1) }`. -/
def insertionInner (a : Nat) : Nat → List Systemer → List Systemer
  | 0, data => data
  | j + 1, data =>
    if a < j + 1 && less data (j + 1) j then insertionInner a j (swap data (j + 1) j)
    else data

/-- Outer loop of `insertionSort`: `for i := a + 1; i < b; i++`. -/
def insertionOuter (a b : Nat) : Nat → Nat → List Systemer → List Systemer
  | 0, _, data => data
  | steps + 1, i, data =>
    if i < b then insertionOuter a b steps (i + 1) (insertionInner a i data) else data

/-- The function `insertionSort(data, a, b)`. -/
def insertionSort (data : List Systemer) (a b : Nat) : List Systemer :=
  insertionOuter a b (b - a) (a + 1) data

/-- Loop of `siftDown`; `root` grows on every round, so `hi` rounds are enough. -/
def siftDownLoop (hi first : Nat) : Nat → Nat → List Systemer → List Systemer
  | 0, _, data => data
  | steps + 1, root, data =>
    let child := 2 * root + 1
    if child ≥ hi then data
    else
      let child :=
        if child + 1 < hi && less data (first + child) (first + child + 1) then child + 1
        else child
      if !less data (first + root) (first + child) then data
      else siftDownLoop hi first steps child (swap data (first + root) (first + child))

/-- The function `siftDown(data, lo, hi, first)`. -/
def siftDown (data : List Systemer) (lo hi first : Nat) : List Systemer :=
  siftDownLoop hi first hi lo data

/-- First loop of `heapSort`: `for i := (hi - 1) / 2; i >= 0; i--`, the
argument being `i + 1`. -/
def heapBuild (hi first : Nat) : Nat → List Systemer → List Systemer
  | 0, data => data
  | i + 1, data => heapBuild hi first i (siftDown data i hi first)

/-- Second loop of `heapSort`: `for i := hi - 1; i >= 0; i--`, the argument
being `i + 1`. -/
def heapPop (first : Nat) : Nat → List Systemer → List Systemer
  | 0, data => data
  | i + 1, data => heapPop first i (siftDown (swap data first (first + i)) 0 i first)

/-- The function `heapSort(data, a, b)`. -/
def heapSort (data : List Systemer) (a b : Nat) : List Systemer :=
  let first := a
  let hi := b - a
  heapPop first hi (heapBuild hi first ((hi - 1) / 2 + 1) data)

/-- A loop `for i <= j && p(i) { i++ }`; it ends within `j + 1 - i` rounds. -/
def scanUp (p : Nat → Bool) (j : Nat) : Nat → Nat → Nat
  | 0, i => i
  | steps + 1, i => if i ≤ j && p i then scanUp p j steps (i + 1) else i

/-- A loop `for i <= j && p(j) { j-- }`; it ends within `j + 1 - i` rounds. -/
def scanDown (p : Nat → Bool) (i : Nat) : Nat → Nat → Nat
  | 0, j => j
  | steps + 1, j => if i ≤ j && p j then scanDown p i steps (j - 1) else j

/-- The endless loop of `partition`, left at `i > j`; it yields the data and `j`. -/
def partitionLoop (a : Nat) : Nat → List Systemer → Nat → Nat → List Systemer × Nat
  | 0, data, _, j => (data, j)
  | steps + 1, data, i, j =>
    let i := scanUp (fun x => less data x a) j (j + 1 - i) i
    let j := scanDown (fun x => !less data x a) i (j + 1 - i) j
    if i > j then (data, j)
    else partitionLoop a steps (swap data i j) (i + 1) (j - 1)

/-- The function `partition(data, a, b, pivot)`: data, new pivot, already partitioned. -/
def partition (data : List Systemer) (a b pivot : Nat) : List Systemer × Nat × Bool :=
  let data := swap data a pivot
  let i := a + 1
  let j := b - 1
  let i := scanUp (fun x => less data x a) j (j + 1 - i) i
  let j := scanDown (fun x => !less data x a) i (j + 1 - i) j
  if i > j then (swap data j a, j, true)
  else
    let r := partitionLoop a (b - a) (swap data i j) (i + 1) (j - 1)
    (swap r.1 r.2 a, r.2, false)

/-- The endless loop of `partitionEqual`, left at `i > j`; it yields the data and `i`. -/
def partitionEqualLoop (a : Nat) : Nat → List Systemer → Nat → Nat → List Systemer × Nat
  | 0, data, i, _ => (data, i)
  | steps + 1, data, i, j =>
    let i := scanUp (fun x => !less data a x) j (j + 1 - i) i
    let j := scanDown (fun x => less data a x) i (j + 1 - i) j
    if i > j then (data, i)
    else partitionEqualLoop a steps (swap data i j) (i + 1) (j - 1)

/-- The function `partitionEqual(data, a, b, pivot)`: data and new pivot. -/
def partitionEqual (data : List Systemer) (a b pivot : Nat) : List Systemer × Nat :=
  partitionEqualLoop a (b - a + 1) (swap data a pivot) (a + 1) (b - 1)

/-- The loop `for i < b && !data.Less(i, i-1) { i++ }` of `partialInsertionSort`. -/
def skipSorted (data : List Systemer) (b : Nat) : Nat → Nat → Nat
  | 0, i => i
  | steps + 1, i => if i < b && !less data i (i - 1) then skipSorted data b steps (i + 1) else i

/-- The loop `for j := i - 1; j >= 1; j--` of `partialInsertionSort`, the
argument being `j`. -/
def shiftSmaller : Nat → List Systemer → List Systemer
  | 0, data => data
  | j + 1, data =>
    if !less data (j + 1) j then data else shiftSmaller j (swap data (j + 1) j)

/-- The loop `for j := i + 1; j < b; j++` of `partialInsertionSort`. -/
def shiftGreater (b : Nat) : Nat → Nat → List Systemer → List Systemer
  | 0, _, data => data
  | steps + 1, j, data =>
    if j < b then
      if !less data j (j - 1) then data
      else shiftGreater b steps (j + 1) (swap data j (j - 1))
    else data

/-- The loop `for j := 0; j < maxSteps; j++` of `partialInsertionSort`. -/
def partialInsertionLoop (a b : Nat) : Nat → Nat → List Systemer → List Systemer × Bool
  | 0, _, data => (data, false)
  | steps + 1, i, data =>
    let i := skipSorted data b (b - i) i
    if i = b then (data, true)
    else if b - a < 50 then (data, false)
    else
      let data := swap data i (i - 1)
      let data := if i - a ≥ 2 then shiftSmaller (i - 1) data else data
      let data := if b - i ≥ 2 then shiftGreater b (b - i) (i + 1) data else data
      partialInsertionLoop a b steps i data

/-- The function `partialInsertionSort(data, a, b)`: data and whether it is sorted. -/
def partialInsertionSort (data : List Systemer) (a b : Nat) : List Systemer × Bool :=
  partialInsertionLoop a b 5 (a + 1) data

/-- Rounds of `bits.Len`. -/
def bitsLenAux : Nat → Nat → Nat
  | 0, _ => 0
  | steps + 1, n => if n = 0 then 0 else bitsLenAux steps (n / 2) + 1

/-- The function `bits.Len`: the number of bits needed to write `n`. -/
def bitsLen (n : Nat) : Nat := bitsLenAux n n

/-- The function `nextPowerOfTwo(length)`. -/
def nextPowerOfTwo (length : Nat) : Nat := 2 ^ bitsLen length

/-- The function `breakPatterns(data, a, b)`. `random length i` is the value
of call number `i` of `Next()` on the generator `xorshift(length)`, whose
arithmetic is not embedded; masking with `modulus - 1` is the remainder
modulo the power of two `modulus`. -/
def breakPatterns (random : Nat → Nat → Nat) (data : List Systemer) (a b : Nat) :
    List Systemer :=
  let length := b - a
  if length ≥ 8 then
    let modulus := nextPowerOfTwo length
    let idx := a + (length / 4) * 2 - 1
    [0, 1, 2].foldl (fun data i =>
      let other := random length i % modulus
      let other := if other ≥ length then other - length else other
      swap data (idx - 1 + i) (a + other)) data
  else data

/-- The type `sortedHint`. -/
inductive sortedHint where
  | unknownHint
  | increasingHint
  | decreasingHint
deriving DecidableEq, Repr

/-- The function `order2(data, a, b, swaps)`: the two indices and the new count. -/
def order2 (data : List Systemer) (a b swaps : Nat) : Nat × Nat × Nat :=
  if less data b a then (b, a, swaps + 1) else (a, b, swaps)

/-- The function `median(data, a, b, c, swaps)`: the index and the new count. -/
def median (data : List Systemer) (a b c swaps : Nat) : Nat × Nat :=
  let r1 := order2 data a b swaps
  let r2 := order2 data r1.2.1 c r1.2.2
  let r3 := order2 data r1.1 r2.1 r2.2.2
  (r3.2.1, r3.2.2)

/-- The function `medianAdjacent(data, a, swaps)`. -/
def medianAdjacent (data : List Systemer) (a swaps : Nat) : Nat × Nat :=
  median data (a - 1) a (a + 1) swaps

/-- The function `choosePivot(data, a, b)`. -/
def choosePivot (data : List Systemer) (a b : Nat) : Nat × sortedHint :=
  let l := b - a
  let i := a + l / 4 * 1
  let j := a + l / 4 * 2
  let k := a + l / 4 * 3
  if l ≥ 8 then
    let r :=
      if l ≥ 50 then
        let ri := medianAdjacent data i 0
        let rj := medianAdjacent data j ri.2
        let rk := medianAdjacent data k rj.2
        median data ri.1 rj.1 rk.1 rk.2
      else median data i j k 0
    if r.2 = 0 then (r.1, sortedHint.increasingHint)
    else if r.2 = 4 * 3 then (r.1, sortedHint.decreasingHint)
    else (r.1, sortedHint.unknownHint)
  else (j, sortedHint.increasingHint)

/-- Loop of `reverseRange`: `for i < j { data.Swap(i, j); i++; j-- }`. -/
def reverseLoop : Nat → Nat → Nat → List Systemer → List Systemer
  | 0, _, _, data => data
  | steps + 1, i, j, data =>
    if i < j then reverseLoop steps (i + 1) (j - 1) (swap data i j) else data

/-- The function `reverseRange(data, a, b)`. -/
def reverseRange (data : List Systemer) (a b : Nat) : List Systemer :=
  reverseLoop (b - a) a (b - 1) data

/-- The function `pdqsort(data, a, b, limit)`, its loop variables
`wasBalanced` and `wasPartitioned` made arguments. Every round of the loop
and every recursive call works on a shorter slice, so `fuel` rounds are
enough when `fuel` is at least `b - a`. -/
def pdqsort (random : Nat → Nat → Nat) :
    Nat → List Systemer → Nat → Nat → Nat → Bool → Bool → List Systemer
  | fuel, data, a, b, limit, wasBalanced, wasPartitioned =>
    let length := b - a
    if length ≤ 12 then insertionSort data a b
    else if limit = 0 then heapSort data a b
    else
      match fuel with
      | 0 => data
      | fuel + 1 =>
        let data := if !wasBalanced then breakPatterns random data a b else data
        let limit := if !wasBalanced then limit - 1 else limit
        let c := choosePivot data a b
        let reversed := decide (c.2 = sortedHint.decreasingHint)
        let data := if reversed then reverseRange data a b else data
        let pivot := if reversed then (b - 1) - (c.1 - a) else c.1
        let hint := if reversed then sortedHint.increasingHint else c.2
        let tryInsertion :=
          wasBalanced && wasPartitioned && decide (hint = sortedHint.increasingHint)
        let p := if tryInsertion then partialInsertionSort data a b else (data, false)
        if p.2 then p.1
        else
          let data := p.1
          if 0 < a && !less data (a - 1) pivot then
            let e := partitionEqual data a b pivot
            pdqsort random fuel e.1 e.2 b limit wasBalanced wasPartitioned
          else
            let q := partition data a b pivot
            let mid := q.2.1
            let leftLen := mid - a
            let rightLen := b - mid
            let balanceThreshold := length / 8
            if leftLen < rightLen then
              pdqsort random fuel (pdqsort random fuel q.1 a mid limit true true)
                (mid + 1) b limit (decide (leftLen ≥ balanceThreshold)) q.2.2
            else
              pdqsort random fuel (pdqsort random fuel q.1 (mid + 1) b limit true true)
                a mid limit (decide (rightLen ≥ balanceThreshold)) q.2.2

/-- The function `sort.Sort` on a `Systemers` value (`Sort` is a reserved word). -/
def sort (random : Nat → Nat → Nat) (data : List Systemer) : List Systemer :=
  let n := data.length
  if n ≤ 1 then data
  else pdqsort random n data 0 n (bitsLen n) true true

end GoSort

/-- The world `AddEntity` leaves behind, also when it panics: the panic comes
from its first statement, the write to a nil entity map, before anything has
changed. -/
def World.afterAddEntity (w : World) (entity : Entity) : World :=
  match w.AddEntity entity with
  | some r => r.world
  | none => w

/-- The world `AddSystem` leaves behind, also when it panics: the panic comes
from the write to a nil presence map, after the system has been appended and
before the sort. -/
def World.afterAddSystem (sortFn : List Systemer → List Systemer) (w : World)
    (system : Systemer) : World :=
  match w.AddSystem sortFn system with
  | some (w1, _) => w1
  | none => { w with systems := w.systems ++ [system] }

/-! ## Sample values -/

/-- Twelve systems of priority 1, in the order they are added. -/
def sampleTwelve : List Systemer :=
  [⟨101, "s01", 1, false⟩, ⟨102, "s02", 1, false⟩, ⟨103, "s03", 1, false⟩,
   ⟨104, "s04", 1, false⟩, ⟨105, "s05", 1, false⟩, ⟨106, "s06", 1, false⟩,
   ⟨107, "s07", 1, false⟩, ⟨108, "s08", 1, false⟩, ⟨109, "s09", 1, false⟩,
   ⟨110, "s10", 1, false⟩, ⟨111, "s11", 1, false⟩, ⟨112, "s12", 1, false⟩]

/-- A thirteenth system, of priority 0. -/
def sampleLow : Systemer := ⟨113, "s13", 0, false⟩

/-- The sequence `sort.Sort` leaves when the thirteenth system is added after
the twelve. -/
def sampleThirteenSorted : List Systemer :=
  [⟨113, "s13", 0, false⟩, ⟨107, "s07", 1, false⟩, ⟨103, "s03", 1, false⟩,
   ⟨104, "s04", 1, false⟩, ⟨105, "s05", 1, false⟩, ⟨106, "s06", 1, false⟩,
   ⟨101, "s01", 1, false⟩, ⟨108, "s08", 1, false⟩, ⟨109, "s09", 1, false⟩,
   ⟨110, "s10", 1, false⟩, ⟨111, "s11", 1, false⟩, ⟨112, "s12", 1, false⟩,
   ⟨102, "s02", 1, false⟩]

/-- A system of priority 5. -/
def sampleS1 : Systemer := ⟨11, "physics", 5, false⟩

/-- A system of priority 2. -/
def sampleS2 : Systemer := ⟨12, "input", 2, false⟩

/-- A system of priority 1, added first. -/
def sampleA : Systemer := ⟨21, "A", 1, false⟩

/-- Another system of priority 1, added second. -/
def sampleB : Systemer := ⟨22, "B", 1, false⟩

/-- A serial-only render system of priority 0. -/
def sampleRender : Systemer := ⟨1, "render", 0, false⟩

/-- An entity requiring the render system. -/
def samplePlayer : Entity := ⟨7, "e1", ["render"]⟩

/-- An initialised world holding the render system and no entity. -/
def sampleWorld : World :=
  { entities := some [], systemMap := some [("render", sampleRender)],
    systems := [sampleRender], isSetup := true, serial := false }

/-- A second system of type render, of priority 1. -/
def sampleRender2 : Systemer := ⟨2, "render", 1, false⟩

/-- The world after adding the render system and the player, with its calls. -/
def sampleConfig : Config :=
  { world := { entities := some [("e1", samplePlayer)],
               systemMap := some [("render", sampleRender)],
               systems := [sampleRender], isSetup := true, serial := false },
    calls := [SysCall.New sampleRender, SysCall.AddEntity sampleRender samplePlayer] }

/-- Hooks over a counter: `Pre` counts one, `Update` adds `dt`, every system
tracks the sample player, concurrent tasks run in reverse order. -/
def sampleHooks : Hooks Nat Nat :=
  { Pre := fun _ n => n + 1
    Entities := fun _ _ => [samplePlayer]
    Update := fun _ _ dt n => n + dt
    Post := fun _ n => n
    schedule := fun _ es => es.reverse }

/-- A serial world with two systems in priority order. -/
def sampleSerialWorld : World :=
  { entities := some [("e1", samplePlayer)],
    systemMap := some [("input", ⟨12, "input", 2, true⟩), ("physics", ⟨11, "physics", 5, false⟩)],
    systems := [⟨12, "input", 2, true⟩, ⟨11, "physics", 5, false⟩],
    isSetup := true, serial := true }

/-! ## Facts about Go maps -/

theorem Entries.get?_set_self {V : Type} (m : Entries V) (k : String) (v : V) :
    (m.set k v).get? k = some v := by
  induction m with
  | nil => simp [Entries.set, Entries.get?]
  | cons p rest ih =>
    obtain ⟨k1, v1⟩ := p
    by_cases h : k1 = k <;> simp [Entries.set, Entries.get?, h, ih]

theorem Entries.get?_set_other {V : Type} (m : Entries V) (k k1 : String) (v : V)
    (hne : k1 ≠ k) : (m.set k v).get? k1 = m.get? k1 := by
  induction m with
  | nil => simp [Entries.set, Entries.get?, Ne.symm hne]
  | cons p rest ih =>
    obtain ⟨k2, v2⟩ := p
    by_cases h : k2 = k
    · subst h
      simp [Entries.set, Entries.get?, Ne.symm hne]
    · by_cases h2 : k2 = k1
      · subst h2
        simp [Entries.set, Entries.get?, h]
      · simp [Entries.set, Entries.get?, h, h2, ih]

theorem Entries.get?_delete_self {V : Type} (m : Entries V) (k : String) :
    (m.delete k).get? k = none := by
  induction m with
  | nil => simp [Entries.delete, Entries.get?]
  | cons p rest ih =>
    obtain ⟨k1, v1⟩ := p
    by_cases h : k1 = k
    · simpa [Entries.delete, h] using ih
    · simpa [Entries.delete, List.filter_cons, h, Entries.get?] using ih

theorem Entries.get?_delete_other {V : Type} (m : Entries V) (k k1 : String)
    (hne : k1 ≠ k) : (m.delete k).get? k1 = m.get? k1 := by
  induction m with
  | nil => simp [Entries.delete, Entries.get?]
  | cons p rest ih =>
    obtain ⟨k2, v2⟩ := p
    by_cases h : k2 = k
    · subst h
      simpa [Entries.delete, Entries.get?, Ne.symm hne] using ih
    · by_cases h2 : k2 = k1
      · subst h2
        simp [Entries.delete, List.filter_cons, h, Entries.get?]
      · simpa [Entries.delete, List.filter_cons, h, Entries.get?, h2] using ih

theorem Entries.mem_of_get? {V : Type} (m : Entries V) (k : String) (v : V)
    (h : m.get? k = some v) : (k, v) ∈ m := by
  induction m with
  | nil => simp [Entries.get?] at h
  | cons p rest ih =>
    obtain ⟨k1, v1⟩ := p
    by_cases hk : k1 = k
    · subst hk
      simp [Entries.get?] at h
      simp [h]
    · simp [Entries.get?, hk] at h
      exact List.mem_cons_of_mem _ (ih h)

theorem Entries.get?_isSome_iff {V : Type} (m : Entries V) (k : String) :
    (m.get? k).isSome = true ↔ k ∈ m.map Prod.fst := by
  induction m with
  | nil => simp [Entries.get?]
  | cons p rest ih =>
    obtain ⟨k1, v1⟩ := p
    by_cases hk : k1 = k
    · simp [Entries.get?, hk]
    · simp only [Entries.get?, hk, if_false, List.map_cons, List.mem_cons]
      rw [ih]
      constructor
      · intro h; exact Or.inr h
      · rintro (h | h)
        · exact absurd h.symm hk
        · exact h

theorem Entries.get?_eq_none_iff {V : Type} (m : Entries V) (k : String) :
    m.get? k = none ↔ k ∉ m.map Prod.fst := by
  rw [← Entries.get?_isSome_iff]
  cases m.get? k <;> simp

theorem Entries.get?_of_mem_nodup {V : Type} (m : Entries V) (k : String) (v : V)
    (hnd : (m.map Prod.fst).Nodup) (h : (k, v) ∈ m) : m.get? k = some v := by
  induction m with
  | nil => simp at h
  | cons p rest ih =>
    obtain ⟨k1, v1⟩ := p
    simp only [List.map_cons, List.nodup_cons] at hnd
    rcases List.mem_cons.mp h with h | h
    · cases h
      simp [Entries.get?]
    · have hk : k1 ≠ k := by
        intro hk
        subst hk
        exact hnd.1 (List.mem_map_of_mem Prod.fst h)
      simp [Entries.get?, hk, ih hnd.2 h]

theorem Entries.keys_set {V : Type} (m : Entries V) (k : String) (v : V) :
    (m.set k v).map Prod.fst =
      if k ∈ m.map Prod.fst then m.map Prod.fst else m.map Prod.fst ++ [k] := by
  induction m with
  | nil => simp [Entries.set]
  | cons p rest ih =>
    obtain ⟨k1, v1⟩ := p
    by_cases h : k1 = k
    · subst h
      simp [Entries.set]
    · have h2 : ¬ k = k1 := fun e => h e.symm
      simp only [Entries.set, h, if_false, List.map_cons, List.mem_cons, h2, false_or, ih]
      split <;> simp

theorem Entries.mem_set {V : Type} (m : Entries V) (k : String) (v : V) (p : String × V)
    (h : p ∈ m.set k v) : p = (k, v) ∨ p ∈ m := by
  induction m with
  | nil => simpa [Entries.set] using h
  | cons q rest ih =>
    obtain ⟨k1, v1⟩ := q
    by_cases hk : k1 = k
    · simp only [Entries.set, hk, if_true, List.mem_cons] at h
      rcases h with h | h
      · exact Or.inl h
      · exact Or.inr (List.mem_cons_of_mem _ h)
    · simp only [Entries.set, hk, if_false, List.mem_cons] at h
      rcases h with h | h
      · exact Or.inr (by simp [h])
      · rcases ih h with h1 | h1
        · exact Or.inl h1
        · exact Or.inr (List.mem_cons_of_mem _ h1)

theorem Entries.mem_set_of_mem {V : Type} (m : Entries V) (k : String) (v : V)
    (p : String × V) (h : p ∈ m) (hne : p.1 ≠ k) : p ∈ m.set k v := by
  induction m with
  | nil => simp at h
  | cons q rest ih =>
    obtain ⟨k1, v1⟩ := q
    by_cases hk : k1 = k
    · rcases List.mem_cons.mp h with h | h
      · subst h
        exact absurd hk hne
      · simp [Entries.set, hk, h]
    · simp only [Entries.set, hk, if_false, List.mem_cons]
      rcases List.mem_cons.mp h with h | h
      · exact Or.inl h
      · exact Or.inr (ih h)

theorem Entries.mem_delete_iff {V : Type} (m : Entries V) (k : String) (p : String × V) :
    p ∈ m.delete k ↔ p ∈ m ∧ p.1 ≠ k := by
  simp [Entries.delete, List.mem_filter]

theorem Entries.delete_of_not_mem {V : Type} (m : Entries V) (k : String)
    (h : k ∉ m.map Prod.fst) : m.delete k = m := by
  unfold Entries.delete
  rw [List.filter_eq_self]
  intro p hp
  have : p.1 ≠ k := by
    intro e
    exact h (e ▸ List.mem_map_of_mem Prod.fst hp)
  simpa using this

/-! ## Facts about the loops of `AddEntity`, `RemoveEntity` and `Entities` -/

theorem firstMissing_eq_none_iff (m : GoMap Systemer) (reqs : List String) :
    firstMissing m reqs = none ↔ ∀ r ∈ reqs, (m.get? r).isSome = true := by
  induction reqs with
  | nil => simp [firstMissing]
  | cons r rest ih =>
    cases h : m.get? r with
    | none => simp [firstMissing, h]
    | some s => simp [firstMissing, h, ih]

theorem firstMissing_eq_some (m : GoMap Systemer) (reqs : List String) (R : String)
    (h : firstMissing m reqs = some R) :
    ∃ before after, reqs = before ++ R :: after ∧
      (∀ x ∈ before, (m.get? x).isSome = true) ∧ m.get? R = none := by
  induction reqs with
  | nil => simp [firstMissing] at h
  | cons r rest ih =>
    cases hr : m.get? r with
    | none =>
      simp only [firstMissing, hr, Option.some.injEq] at h
      subst h
      exact ⟨[], rest, rfl, by simp, hr⟩
    | some s =>
      simp only [firstMissing, hr] at h
      obtain ⟨before, after, h1, h2, h3⟩ := ih h
      refine ⟨r :: before, after, by simp [h1], ?_, h3⟩
      intro x hx
      rcases List.mem_cons.mp hx with hx | hx
      · subst hx
        simp [hr]
      · exact h2 x hx

theorem wireCalls_eq (e : Entity) (l : List Systemer) :
    wireCalls e l =
      (l.filter (fun s => e.DoesRequire s.Type)).map (fun s => SysCall.AddEntity s e) := by
  induction l with
  | nil => rfl
  | cons s rest ih =>
    by_cases h : e.DoesRequire s.Type = true
    · simp [wireCalls, h, ih]
    · simp [wireCalls, h, ih]

theorem unwireCalls_eq (e : Entity) (l : List Systemer) :
    unwireCalls e l =
      (l.filter (fun s => e.DoesRequire s.Type)).map (fun s => SysCall.RemoveEntity s e) := by
  induction l with
  | nil => rfl
  | cons s rest ih =>
    by_cases h : e.DoesRequire s.Type = true
    · simp [unwireCalls, h, ih]
    · simp [unwireCalls, h, ih]

/-! ## Admission of an entity -/

/-- C1: on an initialised world, an entity whose required identifiers are all
keys of the presence map is admitted without error, is stored under its ID,
and `AddEntity` is invoked on exactly the systems of the sequence it requires,
once per occurrence and in sequence order. -/
theorem addEntity_wires_required_systems (w : World) (e : Entity)
    (hinit : w.Initialised)
    (hreq : ∀ r ∈ e.Requirements, (w.systemMap.get? r).isSome = true) :
    ∃ res, w.AddEntity e = some res ∧ res.err = none ∧
      res.world.entities.get? e.ID = some e ∧
      res.calls = (w.Systems.filter (fun s => e.DoesRequire s.Type)).map
        (fun s => SysCall.AddEntity s e) := by
  obtain ⟨_, hent, _⟩ := hinit
  cases hm : w.entities with
  | none => simp [hm] at hent
  | some es =>
    have hfm := (firstMissing_eq_none_iff w.systemMap e.Requirements).mpr hreq
    have hres : w.AddEntity e = some
        { world := { w with entities := some (es.set e.ID e) }, err := none,
          calls := wireCalls e w.systems } := by
      simp [World.AddEntity, GoMap.set, hm, hfm]
    refine ⟨_, hres, rfl, ?_, ?_⟩
    · simp [GoMap.get?, Entries.get?_set_self]
    · simp [wireCalls_eq, World.Systems]

/-- Witness of C1: a world with a render system admits an entity requiring it. -/
theorem addEntity_wires_required_systems_witness :
    ∃ res, sampleWorld.AddEntity samplePlayer = some res ∧ res.err = none ∧
      res.world.entities.get? samplePlayer.ID = some samplePlayer ∧
      res.calls = (sampleWorld.Systems.filter (fun s => samplePlayer.DoesRequire s.Type)).map
        (fun s => SysCall.AddEntity s samplePlayer) :=
  addEntity_wires_required_systems sampleWorld samplePlayer ⟨rfl, rfl, rfl⟩ (by decide)

/-- C2, as amended: on a world whose entity map is allocated, an entity with a
requirement missing from the presence map gets `UnmetRequirement` naming the
missing requirement of lowest index, and no system is called; conversely an
error is returned only if some requirement is missing. -/
theorem addEntity_reports_first_missing (w : World) (e : Entity)
    (halloc : w.entities.isSome = true) :
    ((∃ r ∈ e.Requirements, w.systemMap.get? r = none) →
      ∃ res R before after, w.AddEntity e = some res ∧
        res.err = some { Msg := R } ∧ res.calls = [] ∧
        e.Requirements = before ++ R :: after ∧
        (∀ x ∈ before, (w.systemMap.get? x).isSome = true) ∧
        w.systemMap.get? R = none) ∧
    (∀ res, w.AddEntity e = some res → res.err ≠ none →
      ∃ r ∈ e.Requirements, w.systemMap.get? r = none) := by
  cases hm : w.entities with
  | none => simp [hm] at halloc
  | some es =>
    constructor
    · rintro ⟨r, hr, hnone⟩
      cases hfm : firstMissing w.systemMap e.Requirements with
      | none =>
        have := (firstMissing_eq_none_iff _ _).mp hfm r hr
        simp [hnone] at this
      | some R =>
        obtain ⟨before, after, h1, h2, h3⟩ := firstMissing_eq_some _ _ _ hfm
        have hres : w.AddEntity e = some
            { world := { w with entities := some (es.set e.ID e) },
              err := some { Msg := R }, calls := [] } := by
          simp [World.AddEntity, GoMap.set, hm, hfm]
        exact ⟨_, R, before, after, hres, rfl, rfl, h1, h2, h3⟩
    · intro res hres herr
      cases hfm : firstMissing w.systemMap e.Requirements with
      | none =>
        simp [World.AddEntity, GoMap.set, hm, hfm] at hres
        subst hres
        simp at herr
      | some R =>
        obtain ⟨before, after, h1, _, h3⟩ := firstMissing_eq_some _ _ _ hfm
        exact ⟨R, by simp [h1], h3⟩

/-- Witness of C2: the empty initialised world and an entity requiring render. -/
theorem addEntity_reports_first_missing_witness :
    ∃ res R before after,
      (World.New 4 World.zero).AddEntity samplePlayer = some res ∧
      res.err = some { Msg := R } ∧ res.calls = [] ∧
      samplePlayer.Requirements = before ++ R :: after ∧
      (∀ x ∈ before, ((World.New 4 World.zero).systemMap.get? x).isSome = true) ∧
      (World.New 4 World.zero).systemMap.get? R = none :=
  (addEntity_reports_first_missing (World.New 4 World.zero) samplePlayer (by decide)).1
    ⟨"render", by decide, by decide⟩

/-- C2 as stated fails on the zero-value world: the entity requires a system
that is no key of the (nil) presence map, yet `AddEntity` panics on the write
to the nil entity map and returns nothing. -/
theorem addEntity_zero_world_panics :
    (∃ r ∈ Entity.Requirements samplePlayer, World.zero.systemMap.get? r = none) ∧
    World.zero.AddEntity samplePlayer = none ∧
    ¬ ∃ res, World.zero.AddEntity samplePlayer = some res ∧
        res.err = some { Msg := "render" } := by
  refine ⟨⟨"render", by decide, by decide⟩, by decide, ?_⟩
  rintro ⟨res, h, _⟩
  have h0 : World.zero.AddEntity samplePlayer = none := by decide
  rw [h0] at h
  cases h

/-- C3 at its failing input: on the empty initialised world, admitting an
entity that requires the unregistered system render returns
`UnmetRequirement` and the entity is in the entity map and in `Entities()`
all the same. -/
theorem addEntity_failure_keeps_entity :
    ∃ res, (World.New 4 World.zero).AddEntity samplePlayer = some res ∧
      res.err = some { Msg := "render" } ∧
      (World.New 4 World.zero).entities.get? "e1" = none ∧
      res.world.entities.get? "e1" = some samplePlayer ∧
      res.world.entities ≠ (World.New 4 World.zero).entities ∧
      (World.New 4 World.zero).Entities = [] ∧
      res.world.Entities = [some samplePlayer] :=
  ⟨{ world := { World.New 4 World.zero with
                entities := some [("e1", samplePlayer)] },
     err := some { Msg := "render" }, calls := [] },
   by decide, by decide, by decide, by decide, by decide, by decide, by decide⟩

/-! ## Facts about sequences of registry calls -/

theorem Config.step_addSystem {sortFn : List Systemer → List Systemer} {c c1 : Config}
    {s : Systemer} (h : c.step sortFn (Op.AddSystem s) = some c1) :
    ∃ es, c.world.systemMap = some es ∧
      c1.world.entities = c.world.entities ∧
      c1.world.systemMap = some (es.set s.Type s) ∧
      c1.world.systems = sortFn (c.world.systems ++ [s]) ∧
      c1.world.isSetup = c.world.isSetup ∧ c1.world.serial = c.world.serial ∧
      c1.calls = c.calls ++ [SysCall.New s] := by
  cases hm : c.world.systemMap with
  | none => simp [Config.step, World.AddSystem, GoMap.set, hm] at h
  | some es =>
    simp only [Config.step, World.AddSystem, GoMap.set, hm, Option.some.injEq] at h
    subst h
    exact ⟨es, rfl, rfl, rfl, rfl, rfl, rfl, rfl⟩

theorem Config.step_addEntity {sortFn : List Systemer → List Systemer} {c c1 : Config}
    {e : Entity} (h : c.step sortFn (Op.AddEntity e) = some c1) :
    ∃ es, c.world.entities = some es ∧
      c1.world.entities = some (es.set e.ID e) ∧
      c1.world.systemMap = c.world.systemMap ∧
      c1.world.systems = c.world.systems ∧
      c1.world.isSetup = c.world.isSetup ∧ c1.world.serial = c.world.serial ∧
      c1.calls = c.calls ++
        (match firstMissing c.world.systemMap e.Requirements with
          | some _ => []
          | none => wireCalls e c.world.systems) := by
  cases hm : c.world.entities with
  | none => simp [Config.step, World.AddEntity, GoMap.set, hm] at h
  | some es =>
    cases hfm : firstMissing c.world.systemMap e.Requirements with
    | none =>
      simp only [Config.step, World.AddEntity, GoMap.set, hm, hfm, Option.some.injEq] at h
      subst h
      exact ⟨es, rfl, rfl, rfl, rfl, rfl, rfl, rfl⟩
    | some R =>
      simp only [Config.step, World.AddEntity, GoMap.set, hm, hfm, Option.some.injEq] at h
      subst h
      exact ⟨es, rfl, rfl, rfl, rfl, rfl, rfl, rfl⟩

theorem Config.step_removeEntity {sortFn : List Systemer → List Systemer} {c c1 : Config}
    {e : Entity} (h : c.step sortFn (Op.RemoveEntity e) = some c1) :
    c1.world.entities = c.world.entities.delete e.ID ∧
      c1.world.systemMap = c.world.systemMap ∧
      c1.world.systems = c.world.systems ∧
      c1.world.isSetup = c.world.isSetup ∧ c1.world.serial = c.world.serial ∧
      c1.calls = c.calls ++ unwireCalls e c.world.systems := by
  simp only [Config.step, World.RemoveEntity, Option.some.injEq] at h
  subst h
  exact ⟨rfl, rfl, rfl, rfl, rfl, rfl⟩

/-- Both maps of the world are allocated. -/
theorem Config.step_allocated (sortFn : List Systemer → List Systemer) (c : Config) (op : Op)
    (h : c.world.entities.isSome = true ∧ c.world.systemMap.isSome = true) :
    ∃ c1, c.step sortFn op = some c1 ∧
      c1.world.entities.isSome = true ∧ c1.world.systemMap.isSome = true := by
  obtain ⟨h1, h2⟩ := h
  cases he : c.world.entities with
  | none => simp [he] at h1
  | some es =>
    cases hs : c.world.systemMap with
    | none => simp [hs] at h2
    | some ss =>
      cases op with
      | AddSystem s =>
        cases hstep : c.step sortFn (Op.AddSystem s) with
        | none => simp [Config.step, World.AddSystem, GoMap.set, hs] at hstep
        | some c1 =>
          obtain ⟨_, _, h3, h4, _⟩ := Config.step_addSystem hstep
          exact ⟨c1, rfl, by simp [h3, he], by simp [h4]⟩
      | AddEntity e =>
        cases hstep : c.step sortFn (Op.AddEntity e) with
        | none =>
          cases hfm : firstMissing (some ss) e.Requirements <;>
            simp [Config.step, World.AddEntity, GoMap.set, he, hs, hfm] at hstep
        | some c1 =>
          obtain ⟨_, _, h3, h4, _⟩ := Config.step_addEntity hstep
          exact ⟨c1, rfl, by simp [h3], by simp [h4, hs]⟩
      | RemoveEntity e =>
        exact ⟨_, rfl, by simp [World.RemoveEntity, GoMap.delete, he],
          by simp [World.RemoveEntity, hs]⟩

theorem Config.run_allocated (sortFn : List Systemer → List Systemer) (ops : List Op) :
    ∀ c : Config, c.world.entities.isSome = true ∧ c.world.systemMap.isSome = true →
      ∃ c1, Config.run sortFn c ops = some c1 := by
  induction ops with
  | nil => intro c _; exact ⟨c, rfl⟩
  | cons op rest ih =>
    intro c h
    obtain ⟨c1, hstep, h1⟩ := Config.step_allocated sortFn c op h
    obtain ⟨c2, h2⟩ := ih c1 h1
    exact ⟨c2, by simp [Config.run, hstep, h2]⟩

theorem Config.run_init_total (sortFn : List Systemer → List Systemer) (numCPU : Nat)
    (ops : List Op) : ∃ c, Config.run sortFn (Config.init numCPU) ops = some c :=
  Config.run_allocated sortFn ops _ ⟨rfl, rfl⟩

theorem Config.run_cons {sortFn : List Systemer → List Systemer} {c c2 : Config} {op : Op}
    {rest : List Op} (h : Config.run sortFn c (op :: rest) = some c2) :
    ∃ c1, c.step sortFn op = some c1 ∧ Config.run sortFn c1 rest = some c2 := by
  cases hs : c.step sortFn op with
  | none => simp [Config.run, hs] at h
  | some c1 =>
    simp only [Config.run, hs] at h
    exact ⟨c1, rfl, h⟩

theorem Config.run_nil {sortFn : List Systemer → List Systemer} {c c2 : Config}
    (h : Config.run sortFn c [] = some c2) : c2 = c := by
  simp only [Config.run, Option.some.injEq] at h
  exact h.symm

/-- A property kept by every registry call holds after every sequence of calls. -/
theorem Config.run_invariant (sortFn : List Systemer → List Systemer) (P : Config → Prop)
    (hstep : ∀ c op c1, P c → c.step sortFn op = some c1 → P c1) :
    ∀ (ops : List Op) (c c1 : Config), P c → Config.run sortFn c ops = some c1 → P c1 := by
  intro ops
  induction ops with
  | nil =>
    intro c c1 hP h
    simp only [Config.run, Option.some.injEq] at h
    exact h ▸ hP
  | cons op rest ih =>
    intro c c1 hP h
    cases hs : c.step sortFn op with
    | none => simp [Config.run, hs] at h
    | some c2 =>
      simp only [Config.run, hs] at h
      exact ih c2 c1 (hstep c op c2 hP hs) h

/-! ## The order of the system sequence -/

theorem sortContract_ascending {sortFn : List Systemer → List Systemer}
    (hsort : SortContract sortFn) (l : List Systemer) :
    (sortFn l).Pairwise (fun a b => a.Priority ≤ b.Priority) := by
  refine (hsort.sorted l).imp ?_
  intro a b h
  simpa [Systemers.Less] using h

theorem step_keeps_ascending {sortFn : List Systemer → List Systemer}
    (hsort : SortContract sortFn) (c : Config) (op : Op) (c1 : Config)
    (hP : c.world.systems.Pairwise (fun a b => a.Priority ≤ b.Priority))
    (h : c.step sortFn op = some c1) :
    c1.world.systems.Pairwise (fun a b => a.Priority ≤ b.Priority) := by
  cases op with
  | AddSystem s =>
    obtain ⟨_, _, _, _, h4, _⟩ := Config.step_addSystem h
    rw [h4]
    exact sortContract_ascending hsort _
  | AddEntity e =>
    obtain ⟨_, _, _, _, h4, _⟩ := Config.step_addEntity h
    rw [h4]
    exact hP
  | RemoveEntity e =>
    obtain ⟨_, _, h4, _⟩ := Config.step_removeEntity h
    rw [h4]
    exact hP

theorem sorted_pair_unique {sortFn : List Systemer → List Systemer}
    (hsort : SortContract sortFn) (s1 s2 : Systemer) (h : s2.Priority < s1.Priority) :
    sortFn [s1, s2] = [s2, s1] := by
  have hperm := hsort.perm [s1, s2]
  have hasc := sortContract_ascending hsort [s1, s2]
  have hlen := hperm.length_eq
  have hne : s1 ≠ s2 := by
    intro e
    rw [e] at h
    exact lt_irrefl _ h
  match hl : sortFn [s1, s2], hlen with
  | [a, b], _ =>
    rw [hl] at hperm hasc
    have ha : a ∈ [s1, s2] := hperm.subset (by simp)
    have hb : b ∈ [s1, s2] := hperm.subset (by simp)
    have h1 : s1 ∈ [a, b] := hperm.symm.subset (by simp)
    have h2 : s2 ∈ [a, b] := hperm.symm.subset (by simp)
    have hab : a.Priority ≤ b.Priority := by simpa using hasc
    simp only [List.mem_cons, List.mem_singleton, List.not_mem_nil, or_false] at ha hb h1 h2
    rcases ha with ha | ha <;> rcases hb with hb | hb
    · subst ha; subst hb
      rcases h2 with h2 | h2 <;> exact absurd h2.symm hne
    · subst ha; subst hb
      exact absurd hab (not_le.mpr h)
    · subst ha; subst hb
      rfl
    · subst ha; subst hb
      rcases h1 with h1 | h1 <;> exact absurd h1 hne

theorem stableSort_contract : SortContract stableSort := by
  constructor
  · intro l
    exact List.perm_insertionSort _ l
  · intro l
    have h := @List.sorted_insertionSort Systemer (fun a b => a.Priority ≤ b.Priority) _
      ⟨fun a b => le_total a.Priority b.Priority⟩
      ⟨fun a b c hab hbc => le_trans hab hbc⟩ l
    refine List.Pairwise.imp ?_ h
    intro a b hab
    simpa [Systemers.Less] using hab

/-- C4: in every state reached from an initialised empty world by `AddSystem`,
`AddEntity` and `RemoveEntity` calls, `Systems()` is in ascending order of
`Priority()`; adding a system of priority 5 and then one of priority 2 gives
the sequence with the second system first. -/
theorem systems_sorted_by_priority (sortFn : List Systemer → List Systemer)
    (hsort : SortContract sortFn) (numCPU : Nat) (ops : List Op) :
    (∃ c, Config.run sortFn (Config.init numCPU) ops = some c ∧
      c.world.Systems.Pairwise (fun a b => a.Priority ≤ b.Priority)) ∧
    (∀ s1 s2 : Systemer, s1.Priority = 5 → s2.Priority = 2 →
      ∃ c, Config.run sortFn (Config.init numCPU) [Op.AddSystem s1, Op.AddSystem s2] = some c ∧
        c.world.Systems = [s2, s1]) := by
  constructor
  · obtain ⟨c, hc⟩ := Config.run_init_total sortFn numCPU ops
    refine ⟨c, hc, ?_⟩
    exact Config.run_invariant sortFn
      (fun c => c.world.systems.Pairwise (fun a b => a.Priority ≤ b.Priority))
      (fun c op c1 hP h => step_keeps_ascending hsort c op c1 hP h)
      ops (Config.init numCPU) c (by simp [Config.init, World.New, World.zero]) hc
  · intro s1 s2 h1 h2
    have hone : sortFn [s1] = [s1] := List.perm_singleton.mp (hsort.perm [s1])
    have htwo : sortFn [s1, s2] = [s2, s1] :=
      sorted_pair_unique hsort s1 s2 (by rw [h1, h2]; decide)
    obtain ⟨c, hc⟩ := Config.run_init_total sortFn numCPU [Op.AddSystem s1, Op.AddSystem s2]
    refine ⟨c, hc, ?_⟩
    obtain ⟨c1, hs1, hr1⟩ := Config.run_cons hc
    obtain ⟨c2, hs2, hr2⟩ := Config.run_cons hr1
    have hc2 := Config.run_nil hr2
    subst hc2
    obtain ⟨_, _, _, _, hsys1, _⟩ := Config.step_addSystem hs1
    obtain ⟨_, _, _, _, hsys2, _⟩ := Config.step_addSystem hs2
    have h0 : (Config.init numCPU).world.systems = [] := rfl
    rw [h0, List.nil_append, hone] at hsys1
    rw [hsys1, List.singleton_append, htwo] at hsys2
    exact hsys2

/-- Witness of C4: insertion sort meets the contract; two systems, one entity. -/
theorem systems_sorted_by_priority_witness :
    (∃ c, Config.run stableSort (Config.init 4)
        [Op.AddSystem sampleS1, Op.AddSystem sampleS2, Op.AddEntity samplePlayer] = some c ∧
      c.world.Systems.Pairwise (fun a b => a.Priority ≤ b.Priority)) ∧
    (∃ c, Config.run stableSort (Config.init 4)
        [Op.AddSystem sampleS1, Op.AddSystem sampleS2] = some c ∧
      c.world.Systems = [sampleS2, sampleS1]) :=
  ⟨(systems_sorted_by_priority stableSort stableSort_contract 4
      [Op.AddSystem sampleS1, Op.AddSystem sampleS2, Op.AddEntity samplePlayer]).1,
   (systems_sorted_by_priority stableSort stableSort_contract 4 []).2
      sampleS1 sampleS2 rfl rfl⟩

/-! ## Equal priorities -/

theorem addedSystems_cons_addSystem (s : Systemer) (rest : List Op) :
    addedSystems (Op.AddSystem s :: rest) = s :: addedSystems rest := by
  simp [addedSystems]

theorem addedSystems_cons_addEntity (e : Entity) (rest : List Op) :
    addedSystems (Op.AddEntity e :: rest) = addedSystems rest := by
  simp [addedSystems]

theorem addedSystems_cons_removeEntity (e : Entity) (rest : List Op) :
    addedSystems (Op.RemoveEntity e :: rest) = addedSystems rest := by
  simp [addedSystems]

/-- The sequence holds the systems it held plus the added ones, each once per call. -/
theorem Config.run_systems_perm {sortFn : List Systemer → List Systemer}
    (hperm : ∀ l, (sortFn l).Perm l) :
    ∀ (ops : List Op) (c c2 : Config), Config.run sortFn c ops = some c2 →
      c2.world.systems.Perm (c.world.systems ++ addedSystems ops) := by
  intro ops
  induction ops with
  | nil =>
    intro c c2 h
    rw [Config.run_nil h]
    simp [addedSystems]
  | cons op rest ih =>
    intro c c2 h
    obtain ⟨c1, hs, hr⟩ := Config.run_cons h
    have h1 := ih c1 c2 hr
    cases op with
    | AddSystem s =>
      obtain ⟨_, _, _, _, hsys, _⟩ := Config.step_addSystem hs
      rw [hsys] at h1
      rw [addedSystems_cons_addSystem]
      refine h1.trans ?_
      have := (hperm (c.world.systems ++ [s])).append_right (addedSystems rest)
      simpa using this
    | AddEntity e =>
      obtain ⟨_, _, _, _, hsys, _⟩ := Config.step_addEntity hs
      rw [hsys] at h1
      rw [addedSystems_cons_addEntity]
      exact h1
    | RemoveEntity e =>
      obtain ⟨_, _, hsys, _⟩ := Config.step_removeEntity hs
      rw [hsys] at h1
      rw [addedSystems_cons_removeEntity]
      exact h1

/-! ## The insertion sort of `sort.Sort` -/

theorem GoSort.less_cons_succ (x : Systemer) (data : List Systemer) (i j : Nat) :
    GoSort.less (x :: data) (i + 1) (j + 1) = GoSort.less data i j := by
  simp [GoSort.less]

theorem GoSort.swap_cons_succ (x : Systemer) (data : List Systemer) (i j : Nat) :
    GoSort.swap (x :: data) (i + 1) (j + 1) = x :: GoSort.swap data i j := by
  unfold GoSort.swap
  simp only [List.getElem?_cons_succ]
  cases data[i]? <;> cases data[j]? <;> simp

theorem GoSort.swap_length (data : List Systemer) (i j : Nat) :
    (GoSort.swap data i j).length = data.length := by
  unfold GoSort.swap
  split <;> simp

/-- Exchanging two neighbours of which the right one is `Less` leaves the
systems of every single priority in their order. -/
theorem GoSort.swap_adjacent_filter (p : Int) :
    ∀ (j : Nat) (data : List Systemer), GoSort.less data (j + 1) j = true →
      (GoSort.swap data (j + 1) j).filter (fun s => decide (s.Priority = p)) =
        data.filter (fun s => decide (s.Priority = p)) := by
  intro j
  induction j with
  | zero =>
    intro data h
    match data with
    | [] => simp [GoSort.swap]
    | [x] => simp [GoSort.swap]
    | y :: x :: rest =>
      have hlt : x.Priority < y.Priority := by
        simpa [GoSort.less, Systemers.Less] using h
      have hswap : GoSort.swap (y :: x :: rest) (0 + 1) 0 = x :: y :: rest := by
        simp [GoSort.swap]
      rw [hswap]
      by_cases hx : x.Priority = p
      · have hy : ¬ y.Priority = p := by
          intro e
          rw [hx, e] at hlt
          exact lt_irrefl _ hlt
        simp [List.filter_cons, hx, hy]
      · simp [List.filter_cons, hx]
  | succ j ih =>
    intro data h
    cases data with
    | nil => simp [GoSort.swap]
    | cons x rest =>
      rw [GoSort.less_cons_succ] at h
      rw [GoSort.swap_cons_succ, List.filter_cons, List.filter_cons, ih rest h]

theorem GoSort.insertionInner_keeps (a : Nat) (p : Int) :
    ∀ (j : Nat) (data : List Systemer),
      (GoSort.insertionInner a j data).length = data.length ∧
      (GoSort.insertionInner a j data).filter (fun s => decide (s.Priority = p)) =
        data.filter (fun s => decide (s.Priority = p)) := by
  intro j
  induction j with
  | zero => intro data; exact ⟨rfl, rfl⟩
  | succ j ih =>
    intro data
    by_cases hc : (decide (a < j + 1) && GoSort.less data (j + 1) j) = true
    · have hless : GoSort.less data (j + 1) j = true := by
        simp only [Bool.and_eq_true] at hc
        exact hc.2
      simp only [GoSort.insertionInner, hc, if_true]
      obtain ⟨h1, h2⟩ := ih (GoSort.swap data (j + 1) j)
      exact ⟨h1.trans (GoSort.swap_length _ _ _),
        h2.trans (GoSort.swap_adjacent_filter p j data hless)⟩
    · simp only [GoSort.insertionInner, hc]
      exact ⟨rfl, rfl⟩

theorem GoSort.insertionOuter_keeps (a b : Nat) (p : Int) :
    ∀ (steps i : Nat) (data : List Systemer),
      (GoSort.insertionOuter a b steps i data).length = data.length ∧
      (GoSort.insertionOuter a b steps i data).filter (fun s => decide (s.Priority = p)) =
        data.filter (fun s => decide (s.Priority = p)) := by
  intro steps
  induction steps with
  | zero => intro i data; exact ⟨rfl, rfl⟩
  | succ steps ih =>
    intro i data
    by_cases hi : i < b
    · simp only [GoSort.insertionOuter, hi, if_true]
      obtain ⟨h1, h2⟩ := ih (i + 1) (GoSort.insertionInner a i data)
      obtain ⟨h3, h4⟩ := GoSort.insertionInner_keeps a p i data
      exact ⟨h1.trans h3, h2.trans h4⟩
    · simp [GoSort.insertionOuter, hi]

/-- On a slice of at most twelve elements `sort.Sort` is `insertionSort`. -/
theorem GoSort.sort_of_short (random : Nat → Nat → Nat) (data : List Systemer)
    (h : data.length ≤ 12) :
    GoSort.sort random data =
      if data.length ≤ 1 then data else GoSort.insertionSort data 0 data.length := by
  unfold GoSort.sort
  by_cases h1 : data.length ≤ 1
  · simp [h1]
  · simp only [h1, if_false]
    unfold GoSort.pdqsort
    simp [h]

/-- On a slice of at most twelve elements `sort.Sort` keeps the length and
leaves the systems of every single priority in their order. -/
theorem GoSort.sort_short_keeps (random : Nat → Nat → Nat) (p : Int) (data : List Systemer)
    (h : data.length ≤ 12) :
    (GoSort.sort random data).length = data.length ∧
    (GoSort.sort random data).filter (fun s => decide (s.Priority = p)) =
      data.filter (fun s => decide (s.Priority = p)) := by
  rw [GoSort.sort_of_short random data h]
  by_cases h1 : data.length ≤ 1
  · simp [h1]
  · simp only [h1, if_false]
    exact GoSort.insertionOuter_keeps 0 data.length p _ _ data

/-- While the sequence holds at most twelve systems, the systems of one
priority stay in call order. -/
theorem Config.run_systems_filter (random : Nat → Nat → Nat) (p : Int) :
    ∀ (ops : List Op) (c c2 : Config), Config.run (GoSort.sort random) c ops = some c2 →
      c.world.systems.length + (addedSystems ops).length ≤ 12 →
      c2.world.systems.length = c.world.systems.length + (addedSystems ops).length ∧
      c2.world.systems.filter (fun s => decide (s.Priority = p)) =
        (c.world.systems ++ addedSystems ops).filter (fun s => decide (s.Priority = p)) := by
  intro ops
  induction ops with
  | nil =>
    intro c c2 h _
    rw [Config.run_nil h]
    simp [addedSystems]
  | cons op rest ih =>
    intro c c2 h hlen
    obtain ⟨c1, hs, hr⟩ := Config.run_cons h
    cases op with
    | AddSystem s =>
      obtain ⟨_, _, _, _, hsys, _⟩ := Config.step_addSystem hs
      rw [addedSystems_cons_addSystem] at hlen ⊢
      simp only [List.length_cons] at hlen
      have hshort : (c.world.systems ++ [s]).length ≤ 12 := by
        simp only [List.length_append, List.length_singleton]
        omega
      obtain ⟨hk1, hk2⟩ := GoSort.sort_short_keeps random p _ hshort
      have hlen1 : c1.world.systems.length = c.world.systems.length + 1 := by
        rw [hsys, hk1]
        simp
      obtain ⟨h1, h2⟩ := ih c1 c2 hr (by omega)
      refine ⟨by simp only [List.length_cons]; omega, ?_⟩
      rw [h2, hsys, List.filter_append, hk2, ← List.filter_append, List.append_assoc,
        List.singleton_append]
    | AddEntity e =>
      obtain ⟨_, _, _, _, hsys, _⟩ := Config.step_addEntity hs
      rw [addedSystems_cons_addEntity] at hlen ⊢
      rw [← hsys]
      exact ih c1 c2 hr (by rw [hsys]; exact hlen)
    | RemoveEntity e =>
      obtain ⟨_, _, hsys, _⟩ := Config.step_removeEntity hs
      rw [addedSystems_cons_removeEntity] at hlen ⊢
      rw [← hsys]
      exact ih c1 c2 hr (by rw [hsys]; exact hlen)

/-- C5, as amended: from a world whose maps are allocated, after any calls in
which A is added before B with the same priority, A stands before B in
`Systems()` as long as the sequence holds at most twelve systems: up to that
length the re-sort of `AddSystem` is the insertion sort of `sort.Sort`, which
never exchanges systems of equal priority. -/
theorem addSystem_order_of_equal_priority (random : Nat → Nat → Nat) (c0 : Config)
    (ops : List Op) (A B : Systemer)
    (halloc : c0.world.entities.isSome = true ∧ c0.world.systemMap.isSome = true)
    (hprio : A.Priority = B.Priority)
    (hAB : [Op.AddSystem A, Op.AddSystem B].Sublist ops)
    (hshort : c0.world.Systems.length + (addedSystems ops).length ≤ 12) :
    ∃ c, Config.run (GoSort.sort random) c0 ops = some c ∧
      c.world.Systems.length = c0.world.Systems.length + (addedSystems ops).length ∧
      [A, B].Sublist c.world.Systems := by
  obtain ⟨c, hc⟩ := Config.run_allocated (GoSort.sort random) ops c0 halloc
  have hadded : [A, B].Sublist (addedSystems ops) := by
    have := hAB.filterMap (fun op => match op with
      | Op.AddSystem s => some s
      | _ => none)
    simpa [addedSystems] using this
  obtain ⟨hlen, hf⟩ := Config.run_systems_filter random A.Priority ops c0 c hc hshort
  refine ⟨c, hc, hlen, ?_⟩
  have h1 := hadded.filter (fun s => decide (s.Priority = A.Priority))
  have h2 : [A, B].filter (fun s => decide (s.Priority = A.Priority)) = [A, B] := by
    simp [hprio]
  rw [h2] at h1
  have h3 : ((addedSystems ops).filter (fun s => decide (s.Priority = A.Priority))).Sublist
      (c.world.systems.filter (fun s => decide (s.Priority = A.Priority))) := by
    rw [hf, List.filter_append]
    exact List.sublist_append_right _ _
  exact (h1.trans h3).trans (List.filter_sublist _)

/-- Witness of C5 as amended: A and B of priority 1 added in turn to an empty world. -/
theorem addSystem_order_of_equal_priority_witness :
    ∃ c, Config.run (GoSort.sort (fun _ _ => 0)) (Config.init 4)
        [Op.AddSystem sampleA, Op.AddSystem sampleB] = some c ∧
      c.world.Systems.length = (Config.init 4).world.Systems.length +
        (addedSystems [Op.AddSystem sampleA, Op.AddSystem sampleB]).length ∧
      [sampleA, sampleB].Sublist c.world.Systems :=
  addSystem_order_of_equal_priority (fun _ _ => 0) (Config.init 4)
    [Op.AddSystem sampleA, Op.AddSystem sampleB] sampleA sampleB ⟨rfl, rfl⟩ rfl
    (List.Sublist.refl _) (by decide)

theorem Config.run_append_some {sortFn : List Systemer → List Systemer} :
    ∀ (ops1 ops2 : List Op) (c c2 : Config), Config.run sortFn c (ops1 ++ ops2) = some c2 →
      ∃ c1, Config.run sortFn c ops1 = some c1 ∧ Config.run sortFn c1 ops2 = some c2 := by
  intro ops1
  induction ops1 with
  | nil => intro ops2 c c2 h; exact ⟨c, rfl, h⟩
  | cons op rest ih =>
    intro ops2 c c2 h
    obtain ⟨c0, hs, hr⟩ := Config.run_cons h
    obtain ⟨c1, h1, h2⟩ := ih ops2 c0 c2 hr
    exact ⟨c1, by simp [Config.run, hs, h1], h2⟩

theorem addedSystems_map_addSystem (l : List Systemer) :
    addedSystems (l.map Op.AddSystem) = l := by
  induction l with
  | nil => rfl
  | cons s rest ih => rw [List.map_cons, addedSystems_cons_addSystem, ih]

theorem GoSort.pdqsort_short (random : Nat → Nat → Nat) (fuel : Nat) (data : List Systemer)
    (a b limit : Nat) (wb wp : Bool) (h : b - a ≤ 12) :
    GoSort.pdqsort random fuel data a b limit wb wp = GoSort.insertionSort data a b := by
  unfold GoSort.pdqsort
  simp [h]

/-- One round of the loop of `pdqsort` that starts balanced at `a = 0`, finds
no decreasing run, gets `false` from `partialInsertionSort` with the slice
as it was, and ends in `partition`. -/
theorem GoSort.pdqsort_round (random : Nat → Nat → Nat) (fuel : Nat)
    (data data2 : List Systemer) (b limit pivot mid : Nat) (hint : GoSort.sortedHint)
    (wp ap : Bool) (hlen : ¬ b - 0 ≤ 12) (hlim : ¬ limit = 0)
    (hpivot : GoSort.choosePivot data 0 b = (pivot, hint))
    (hhint : ¬ hint = GoSort.sortedHint.decreasingHint)
    (hpins : GoSort.partialInsertionSort data 0 b = (data, false))
    (hpart : GoSort.partition data 0 b pivot = (data2, mid, ap)) :
    GoSort.pdqsort random (fuel + 1) data 0 b limit true wp =
      if mid - 0 < b - mid then
        GoSort.pdqsort random fuel (GoSort.pdqsort random fuel data2 0 mid limit true true)
          (mid + 1) b limit (decide (mid - 0 ≥ (b - 0) / 8)) ap
      else
        GoSort.pdqsort random fuel (GoSort.pdqsort random fuel data2 (mid + 1) b limit true true)
          0 mid limit (decide (b - mid ≥ (b - 0) / 8)) ap := by
  rw [GoSort.pdqsort]
  simp only [hlen, hlim, if_false, hpivot, hhint, decide_False, Bool.not_true, Bool.false_eq_true,
    hpins, ite_self, lt_self_iff_false, Bool.false_and, hpart]

/-- The run of `sort.Sort` on the twelve systems followed by the thirteenth:
the median of three picks the seventh system as pivot, `partition` moves it
to the front and exchanges the second system with the thirteenth, and the
two insertion sorts that follow change nothing. -/
theorem GoSort.sort_sampleThirteen (random : Nat → Nat → Nat) :
    GoSort.sort random (sampleTwelve ++ [sampleLow]) = sampleThirteenSorted := by
  have hround := GoSort.pdqsort_round random 12 (sampleTwelve ++ [sampleLow])
    sampleThirteenSorted 13 4 6 1 GoSort.sortedHint.increasingHint true false
    (by decide) (by decide) (by decide) (by decide) (by decide) (by decide)
  have hleft : ∀ wb wp, GoSort.pdqsort random 12 sampleThirteenSorted 0 1 4 wb wp =
      sampleThirteenSorted := by
    intro wb wp
    rw [GoSort.pdqsort_short random 12 _ 0 1 4 wb wp (by decide)]
    decide
  have hright : ∀ wb wp, GoSort.pdqsort random 12 sampleThirteenSorted 2 13 4 wb wp =
      sampleThirteenSorted := by
    intro wb wp
    rw [GoSort.pdqsort_short random 12 _ 2 13 4 wb wp (by decide)]
    decide
  have hstart : GoSort.sort random (sampleTwelve ++ [sampleLow]) =
      GoSort.pdqsort random (12 + 1) (sampleTwelve ++ [sampleLow]) 0 13 4 true true := by
    have hlen : (sampleTwelve ++ [sampleLow]).length = 13 := by decide
    have hbits : GoSort.bitsLen 13 = 4 := by decide
    simp only [GoSort.sort, hlen, hbits, show ¬ (13 ≤ 1) from by decide, if_false]
  rw [hstart, hround]
  simp only [show (1 - 0 < 13 - 1) = True from by decide, if_true, hleft]
  exact hright _ _

/-- C5 as stated fails: when twelve systems of priority 1 and then one of
priority 0 are added, the re-sort of the thirteenth `AddSystem` leaves the
seventh system before the third, which was added earlier with the same
priority; this is so whatever values the generator of `breakPatterns` yields. -/
theorem addSystem_reorders_equal_priority :
    [Op.AddSystem ⟨103, "s03", 1, false⟩, Op.AddSystem ⟨107, "s07", 1, false⟩].Sublist
      ((sampleTwelve ++ [sampleLow]).map Op.AddSystem) ∧
    Systemer.Priority ⟨103, "s03", 1, false⟩ = Systemer.Priority ⟨107, "s07", 1, false⟩ ∧
    (∀ random : Nat → Nat → Nat,
      ∃ c, Config.run (GoSort.sort random) (Config.init 4)
          ((sampleTwelve ++ [sampleLow]).map Op.AddSystem) = some c ∧
        c.world.Systems = sampleThirteenSorted) ∧
    [⟨107, "s07", 1, false⟩, ⟨103, "s03", 1, false⟩].Sublist sampleThirteenSorted ∧
    ¬ [⟨103, "s03", 1, false⟩, ⟨107, "s07", 1, false⟩].Sublist sampleThirteenSorted := by
  refine ⟨by decide, rfl, ?_, by decide, by decide⟩
  intro random
  obtain ⟨c, hc⟩ := Config.run_init_total (GoSort.sort random) 4
    ((sampleTwelve ++ [sampleLow]).map Op.AddSystem)
  refine ⟨c, hc, ?_⟩
  rw [List.map_append] at hc
  obtain ⟨c12, h12, h13⟩ := Config.run_append_some _ _ _ _ hc
  obtain ⟨hlen, hfilter⟩ := Config.run_systems_filter random 1 _ _ _ h12
    (by rw [addedSystems_map_addSystem]; decide)
  rw [addedSystems_map_addSystem] at hlen hfilter
  have hinit : (Config.init 4).world.systems = [] := rfl
  rw [hinit, List.nil_append] at hfilter
  rw [hinit] at hlen
  have hall : sampleTwelve.filter (fun s => decide (s.Priority = 1)) = sampleTwelve := by
    decide
  rw [hall] at hfilter
  have hsys12 : c12.world.systems = sampleTwelve := by
    have hsub := List.filter_sublist (p := fun s : Systemer => decide (s.Priority = 1))
      c12.world.systems
    rw [hfilter] at hsub
    exact (hsub.eq_of_length (by rw [hlen]; decide)).symm
  obtain ⟨c13, hs13, hr13⟩ := Config.run_cons h13
  rw [Config.run_nil hr13]
  obtain ⟨_, _, _, _, hsys, _⟩ := Config.step_addSystem hs13
  rw [World.Systems, hsys, hsys12]
  exact GoSort.sort_sampleThirteen random

/-! ## Facts about the frame update -/

theorem updateSerial_eq {σ Dt : Type} (h : Hooks σ Dt) (s : Systemer) (dt : Dt)
    (es : List Entity) :
    ∀ f : Frame σ Dt, updateSerial h s dt es f =
      { st := es.foldl (fun acc e => h.Update s e dt acc) f.st,
        trace := f.trace ++ es.map (fun e => FrameCall.Update s e dt) } := by
  induction es with
  | nil => intro f; simp [updateSerial]
  | cons e rest ih =>
    intro f
    simp [updateSerial, ih, Frame.call]

theorem updateSystems_cons {σ Dt : Type} (h : Hooks σ Dt) (serial : Bool) (dt : Dt)
    (s : Systemer) (rest : List Systemer) (f : Frame σ Dt) :
    updateSystems h serial dt (s :: rest) f =
      updateSystems h serial dt rest
        { st := turnState h serial s dt f.st,
          trace := f.trace ++ specBracket s dt (turnEntities h serial s f.st) } := by
  cases hc : (serial || !s.RunInParallel)
  · simp [updateSystems, hc, updateConcurrent, updateSerial_eq, Frame.call, turnState,
      turnEntities, specBracket, List.append_assoc]
  · simp [updateSystems, hc, updateSerial_eq, Frame.call, turnState,
      turnEntities, specBracket, List.append_assoc]

theorem updateSystems_split {σ Dt : Type} (h : Hooks σ Dt) (serial : Bool) (dt : Dt)
    (l : List Systemer) :
    ∀ f : Frame σ Dt, updateSystems h serial dt l f =
      { st := frameState h serial dt l f.st,
        trace := f.trace ++ frameTrace h serial dt l f.st } := by
  induction l with
  | nil => intro f; simp [updateSystems, frameState, frameTrace]
  | cons s rest ih =>
    intro f
    simp only [frameState, frameTrace, updateSystems_cons]
    rw [ih, ih { st := turnState h serial s dt f.st,
                 trace := [] ++ specBracket s dt (turnEntities h serial s f.st) }]
    simp [List.append_assoc]

theorem frameTrace_cons {σ Dt : Type} (h : Hooks σ Dt) (serial : Bool) (dt : Dt)
    (s : Systemer) (rest : List Systemer) (st : σ) :
    frameTrace h serial dt (s :: rest) st =
      specBracket s dt (turnEntities h serial s st) ++
        frameTrace h serial dt rest (turnState h serial s dt st) := by
  simp only [frameTrace, updateSystems_cons]
  rw [updateSystems_split]
  simp [frameTrace]

theorem frameState_cons {σ Dt : Type} (h : Hooks σ Dt) (serial : Bool) (dt : Dt)
    (s : Systemer) (rest : List Systemer) (st : σ) :
    frameState h serial dt (s :: rest) st =
      frameState h serial dt rest (turnState h serial s dt st) := by
  simp only [frameState, updateSystems_cons]
  rw [updateSystems_split]
  simp [frameState]

theorem frameTrace_append {σ Dt : Type} (h : Hooks σ Dt) (serial : Bool) (dt : Dt)
    (l1 l2 : List Systemer) :
    ∀ st : σ, frameTrace h serial dt (l1 ++ l2) st =
      frameTrace h serial dt l1 st ++ frameTrace h serial dt l2 (frameState h serial dt l1 st) := by
  induction l1 with
  | nil => intro st; simp [frameTrace, frameState, updateSystems]
  | cons s rest ih =>
    intro st
    simp only [List.cons_append, frameTrace_cons, frameState_cons, ih, List.append_assoc]

theorem turnEntities_serial {σ Dt : Type} (h : Hooks σ Dt) (serial : Bool) (s : Systemer)
    (st : σ) (hs : serial = true ∨ s.RunInParallel = false) :
    turnEntities h serial s st = h.Entities s (h.Pre s st) := by
  rcases hs with hs | hs <;> simp [turnEntities, hs]

theorem turnState_serial {σ Dt : Type} (h : Hooks σ Dt) (serial : Bool) (s : Systemer)
    (dt : Dt) (st : σ) (hs : serial = true ∨ s.RunInParallel = false) :
    turnState h serial s dt st = afterBracket h s dt st := by
  simp [turnState, afterBracket, turnEntities_serial h serial s st hs]

theorem frameTrace_serial {σ Dt : Type} (h : Hooks σ Dt) (serial : Bool) (dt : Dt)
    (l : List Systemer) (hs : serial = true ∨ ∀ s ∈ l, s.RunInParallel = false) :
    ∀ st : σ, frameTrace h serial dt l st = specSerialFrame h dt l st := by
  induction l with
  | nil => intro st; simp [frameTrace, updateSystems, specSerialFrame]
  | cons s rest ih =>
    intro st
    have hs1 : serial = true ∨ s.RunInParallel = false := by
      rcases hs with hs | hs
      · exact Or.inl hs
      · exact Or.inr (hs s (by simp))
    have hs2 : serial = true ∨ ∀ x ∈ rest, x.RunInParallel = false := by
      rcases hs with hs | hs
      · exact Or.inl hs
      · exact Or.inr (fun x hx => hs x (List.mem_cons_of_mem _ hx))
    rw [frameTrace_cons, turnEntities_serial h serial s st hs1,
      turnState_serial h serial s dt st hs1, ih hs2]
    rfl

theorem specBracket_system {Dt : Type} (s : Systemer) (dt : Dt) (es : List Entity)
    (c : FrameCall Dt) (hc : c ∈ specBracket s dt es) : c.system = s := by
  simp only [specBracket, List.mem_append, List.mem_singleton, List.mem_map] at hc
  rcases hc with (hc | ⟨e, _, hc⟩) | hc <;> subst hc <;> rfl

theorem frameTrace_system {σ Dt : Type} (h : Hooks σ Dt) (serial : Bool) (dt : Dt)
    (l : List Systemer) :
    ∀ (st : σ) (c : FrameCall Dt), c ∈ frameTrace h serial dt l st → c.system ∈ l := by
  induction l with
  | nil => intro st c hc; simp [frameTrace, updateSystems] at hc
  | cons s rest ih =>
    intro st c hc
    rw [frameTrace_cons, List.mem_append] at hc
    rcases hc with hc | hc
    · rw [specBracket_system s dt _ c hc]
      simp
    · exact List.mem_cons_of_mem _ (ih _ c hc)

theorem frameTrace_priority_order {σ Dt : Type} (h : Hooks σ Dt) (serial : Bool) (dt : Dt)
    (l : List Systemer) (hl : l.Pairwise (fun a b => a.Priority ≤ b.Priority)) :
    ∀ st : σ, (frameTrace h serial dt l st).Pairwise
      (fun a b => a.system.Priority ≤ b.system.Priority) := by
  induction l with
  | nil => intro st; simp [frameTrace, updateSystems]
  | cons s rest ih =>
    intro st
    rw [frameTrace_cons, List.pairwise_append]
    obtain ⟨h1, h2⟩ := List.pairwise_cons.mp hl
    refine ⟨?_, ih h2 _, ?_⟩
    · rw [List.pairwise_iff_forall_sublist]
      intro a b hab
      have ha := specBracket_system s dt _ a (hab.subset (by simp))
      have hb := specBracket_system s dt _ b (hab.subset (by simp))
      rw [ha, hb]
    · intro a ha b hb
      rw [specBracket_system s dt _ a ha]
      exact h1 _ (frameTrace_system h serial dt rest _ b hb)

theorem specBracket_count_pre {Dt : Type} [DecidableEq Dt] (s x : Systemer) (dt : Dt)
    (es : List Entity) :
    (specBracket s dt es).count (FrameCall.Pre x) = if s = x then 1 else 0 := by
  have hmap : (es.map (fun e => FrameCall.Update s e dt)).count (FrameCall.Pre x) = 0 := by
    rw [List.count_eq_zero]
    simp
  simp only [specBracket, List.count_append, hmap, List.count_singleton]
  by_cases hsx : s = x <;> simp [hsx]

theorem specBracket_count_post {Dt : Type} [DecidableEq Dt] (s x : Systemer) (dt : Dt)
    (es : List Entity) :
    (specBracket s dt es).count (FrameCall.Post x) = if s = x then 1 else 0 := by
  have hmap : (es.map (fun e => FrameCall.Update s e dt)).count (FrameCall.Post x) = 0 := by
    rw [List.count_eq_zero]
    simp
  simp only [specBracket, List.count_append, hmap, List.count_singleton]
  by_cases hsx : s = x <;> simp [hsx]

theorem frameTrace_count {σ Dt : Type} [DecidableEq Dt] (h : Hooks σ Dt) (serial : Bool)
    (dt : Dt) (x : Systemer) (l : List Systemer) :
    ∀ st : σ, (frameTrace h serial dt l st).count (FrameCall.Pre x) = l.count x ∧
      (frameTrace h serial dt l st).count (FrameCall.Post x) = l.count x := by
  induction l with
  | nil => intro st; simp [frameTrace, updateSystems]
  | cons s rest ih =>
    intro st
    obtain ⟨h1, h2⟩ := ih (turnState h serial s dt st)
    rw [frameTrace_cons, List.count_append, List.count_append, specBracket_count_pre,
      specBracket_count_post, h1, h2, List.count_cons]
    by_cases hsx : s = x <;> simp [hsx, Nat.add_comm]

/-- C6: in a serial world, and in any world whose systems all have
`RunInParallel()` false, the hook calls of `Update(dt)` are the brackets
`Pre`, one `Update` per entity of `Entities()` in its order, `Post`, of the
systems in sequence order; in any world the turn of a system that is not run
concurrently is that bracket, between the calls of the systems before and
after it; `Pre` and `Post` run once per occurrence of a system, and with the
sequence ascending in priority no call on a system of larger priority comes
before a call on one of smaller priority. -/
theorem update_runs_serial_brackets {σ Dt : Type} [DecidableEq Dt] (h : Hooks σ Dt)
    (w : World) (dt : Dt) (st : σ) :
    ((w.serial = true ∨ ∀ s ∈ w.Systems, s.RunInParallel = false) →
      (w.Update h dt st).trace = specSerialFrame h dt w.Systems st) ∧
    (∀ l1 s l2, w.Systems = l1 ++ s :: l2 →
      (w.serial = true ∨ s.RunInParallel = false) →
      (w.Update h dt st).trace =
        frameTrace h w.serial dt l1 st ++
          (specBracket s dt (h.Entities s (h.Pre s (frameState h w.serial dt l1 st))) ++
            frameTrace h w.serial dt l2
              (afterBracket h s dt (frameState h w.serial dt l1 st)))) ∧
    (∀ s, (w.Update h dt st).trace.count (FrameCall.Pre s) = w.Systems.count s ∧
      (w.Update h dt st).trace.count (FrameCall.Post s) = w.Systems.count s) ∧
    (w.Systems.Pairwise (fun a b => a.Priority ≤ b.Priority) →
      (w.Update h dt st).trace.Pairwise
        (fun a b => a.system.Priority ≤ b.system.Priority)) := by
  have htrace : (w.Update h dt st).trace = frameTrace h w.serial dt w.Systems st := rfl
  refine ⟨?_, ?_, ?_, ?_⟩
  · intro hs
    rw [htrace]
    exact frameTrace_serial h w.serial dt w.Systems hs st
  · intro l1 s l2 hl hs
    rw [htrace, hl, frameTrace_append, frameTrace_cons,
      turnEntities_serial h w.serial s _ hs, turnState_serial h w.serial s dt _ hs]
  · intro s
    rw [htrace]
    exact frameTrace_count h w.serial dt s w.Systems st
  · intro hl
    rw [htrace]
    exact frameTrace_priority_order h w.serial dt w.Systems hl st

/-- Witness of C6: a serial world, two systems, one tracked entity each. -/
theorem update_runs_serial_brackets_witness :
    (sampleSerialWorld.Update sampleHooks 3 0).trace =
        specSerialFrame sampleHooks 3 sampleSerialWorld.Systems 0 ∧
      (sampleSerialWorld.Update sampleHooks 3 0).trace =
        [FrameCall.Pre ⟨12, "input", 2, true⟩,
         FrameCall.Update ⟨12, "input", 2, true⟩ samplePlayer 3,
         FrameCall.Post ⟨12, "input", 2, true⟩,
         FrameCall.Pre ⟨11, "physics", 5, false⟩,
         FrameCall.Update ⟨11, "physics", 5, false⟩ samplePlayer 3,
         FrameCall.Post ⟨11, "physics", 5, false⟩] ∧
      (sampleSerialWorld.Update sampleHooks 3 0).trace.Pairwise
        (fun a b => a.system.Priority ≤ b.system.Priority) :=
  ⟨(update_runs_serial_brackets sampleHooks sampleSerialWorld 3 0).1 (Or.inl rfl),
   rfl,
   (update_runs_serial_brackets sampleHooks sampleSerialWorld 3 0).2.2.2 (by decide)⟩

/-! ## What a system tracks -/

theorem tracked_append (s : Systemer) (l1 l2 : List SysCall) :
    tracked s (l1 ++ l2) = l2.foldl (trackedStep s) (tracked s l1) := by
  simp [tracked, List.foldl_append]

theorem mem_foldl_wireCalls (s : Systemer) (e x : Entity) (l : List Systemer) :
    ∀ acc : List Entity, x ∈ (wireCalls e l).foldl (trackedStep s) acc ↔
      x ∈ acc ∨ (x = e ∧ s ∈ l ∧ e.DoesRequire s.Type = true) := by
  induction l with
  | nil => intro acc; simp [wireCalls]
  | cons s1 rest ih =>
    intro acc
    cases hreq : e.DoesRequire s1.Type with
    | false =>
      have hw : wireCalls e (s1 :: rest) = wireCalls e rest := by simp [wireCalls, hreq]
      rw [hw, ih]
      constructor
      · rintro (h | ⟨h1, h2, h3⟩)
        · exact Or.inl h
        · exact Or.inr ⟨h1, List.mem_cons_of_mem _ h2, h3⟩
      · rintro (h | ⟨h1, h2, h3⟩)
        · exact Or.inl h
        · rcases List.mem_cons.mp h2 with h2 | h2
          · subst h2
            rw [hreq] at h3
            cases h3
          · exact Or.inr ⟨h1, h2, h3⟩
    | true =>
      have hw : wireCalls e (s1 :: rest) = SysCall.AddEntity s1 e :: wireCalls e rest := by
        simp [wireCalls, hreq]
      rw [hw, List.foldl_cons, ih]
      by_cases hs : s1 = s
      · subst hs
        simp only [trackedStep, if_true, List.mem_append, List.mem_singleton, List.mem_cons,
          true_or, true_and, hreq]
        tauto
      · have hmem : s ∈ s1 :: rest ↔ s ∈ rest := by
          simp [List.mem_cons, Ne.symm hs]
        simp only [trackedStep, hs, if_false, hmem]

theorem mem_foldl_unwireCalls (s : Systemer) (e x : Entity) (l : List Systemer) :
    ∀ acc : List Entity, x ∈ (unwireCalls e l).foldl (trackedStep s) acc ↔
      x ∈ acc ∧ ¬ (x = e ∧ s ∈ l ∧ e.DoesRequire s.Type = true) := by
  induction l with
  | nil => intro acc; simp [unwireCalls]
  | cons s1 rest ih =>
    intro acc
    cases hreq : e.DoesRequire s1.Type with
    | false =>
      have hw : unwireCalls e (s1 :: rest) = unwireCalls e rest := by
        simp [unwireCalls, hreq]
      rw [hw, ih]
      constructor
      · rintro ⟨h, hn⟩
        refine ⟨h, ?_⟩
        rintro ⟨h1, h2, h3⟩
        rcases List.mem_cons.mp h2 with h2 | h2
        · subst h2
          rw [hreq] at h3
          cases h3
        · exact hn ⟨h1, h2, h3⟩
      · rintro ⟨h, hn⟩
        exact ⟨h, fun hx => hn ⟨hx.1, List.mem_cons_of_mem _ hx.2.1, hx.2.2⟩⟩
    | true =>
      have hw : unwireCalls e (s1 :: rest) =
          SysCall.RemoveEntity s1 e :: unwireCalls e rest := by
        simp [unwireCalls, hreq]
      rw [hw, List.foldl_cons, ih]
      by_cases hs : s1 = s
      · subst hs
        simp only [trackedStep, if_true, List.mem_filter, List.mem_cons, true_or, true_and,
          hreq, decide_eq_true_eq]
        tauto
      · have hmem : s ∈ s1 :: rest ↔ s ∈ rest := by
          simp [List.mem_cons, Ne.symm hs]
        simp only [trackedStep, hs, if_false, hmem]

theorem fillEntities_eq (es : Entries Entity) :
    ∀ (filled : List (Option Entity)),
      fillEntities es filled.length (filled ++ List.replicate es.length none) =
        filled ++ es.map (fun p => some p.2) := by
  induction es with
  | nil => intro filled; simp [fillEntities]
  | cons p rest ih =>
    intro filled
    obtain ⟨k, v⟩ := p
    have hset : (filled ++ List.replicate (rest.length + 1) none).set filled.length (some v) =
        (filled ++ [some v]) ++ List.replicate rest.length none := by
      rw [List.set_append_right _ _ (Nat.le_refl _)]
      simp [List.replicate_succ]
    have := ih (filled ++ [some v])
    simp only [List.length_append, List.length_singleton] at this
    simp only [fillEntities, List.length_cons]
    rw [hset, this]
    simp

theorem World.Entities_eq (w : World) :
    w.Entities = w.entities.values.map some := by
  have := fillEntities_eq w.entities.entries []
  simp only [List.length_nil, List.nil_append] at this
  simp [World.Entities, GoMap.len, GoMap.values, this]

/-! ## The invariant of the registry -/

theorem Entries.nodup_keys_set {V : Type} (m : Entries V) (k : String) (v : V)
    (h : (m.map Prod.fst).Nodup) : ((m.set k v).map Prod.fst).Nodup := by
  rw [Entries.keys_set]
  split
  · exact h
  · rename_i hk
    rw [List.nodup_append]
    refine ⟨h, List.nodup_singleton k, ?_⟩
    intro a ha hb
    rw [List.mem_singleton] at hb
    subst hb
    exact hk ha

theorem Entries.nodup_keys_delete {V : Type} (m : Entries V) (k : String)
    (h : (m.map Prod.fst).Nodup) : ((m.delete k).map Prod.fst).Nodup :=
  h.sublist ((List.filter_sublist m).map Prod.fst)

theorem Config.inv_init (numCPU : Nat) : (Config.init numCPU).Inv := by
  constructor <;> simp [Config.init, World.New, World.zero, GoMap.make, GoMap.entries,
    GoMap.keys, tracked]

theorem Config.inv_step {sortFn : List Systemer → List Systemer}
    (hperm : ∀ l, (sortFn l).Perm l) {c c1 : Config} {op : Op} (hI : c.Inv)
    (h : c.step sortFn op = some c1) : c1.Inv := by
  obtain ⟨ents, hents⟩ := Option.isSome_iff_exists.mp hI.allocE
  obtain ⟨smap, hsmap⟩ := Option.isSome_iff_exists.mp hI.allocS
  have hkeyedE := hI.keyedE
  have hkeyedS := hI.keyedS
  have hnodupE := hI.nodupE
  have hnodupS := hI.nodupS
  have hmapInSeq := hI.mapInSeq
  have hseqInMap := hI.seqInMap
  have htracked := hI.trackedReq
  simp only [hents, GoMap.entries, GoMap.keys] at hkeyedE hnodupE
  simp only [hsmap, GoMap.entries, GoMap.keys, GoMap.get?] at hkeyedS hnodupS hmapInSeq hseqInMap
  cases op with
  | AddSystem s =>
    obtain ⟨es, hm, hE, hS, hsys, _, _, hcalls⟩ := Config.step_addSystem h
    rw [hsmap, Option.some.injEq] at hm
    subst hm
    have hmem : ∀ x, x ∈ c1.world.systems ↔ x ∈ c.world.systems ∨ x = s := by
      intro x
      rw [hsys, (hperm _).mem_iff]
      simp
    have htr : ∀ x, tracked x c1.calls = tracked x c.calls := by
      intro x
      rw [hcalls, tracked_append]
      rfl
    constructor
    · rw [hE]; exact hI.allocE
    · rw [hS]; rfl
    · rw [hE, hents]; exact hkeyedE
    · rw [hS]
      intro p hp
      rcases Entries.mem_set _ _ _ _ hp with h1 | h1
      · rw [h1]
      · exact hkeyedS p h1
    · rw [hE, hents]; exact hnodupE
    · rw [hS]
      exact Entries.nodup_keys_set _ _ _ hnodupS
    · rw [hS]
      intro p hp
      rw [hmem]
      rcases Entries.mem_set _ _ _ _ hp with h1 | h1
      · rw [h1]; exact Or.inr rfl
      · exact Or.inl (hmapInSeq p h1)
    · rw [hS]
      intro x hx
      simp only [GoMap.get?]
      by_cases hxs : x.Type = s.Type
      · rw [hxs, Entries.get?_set_self]; rfl
      · rw [Entries.get?_set_other _ _ _ _ hxs]
        rcases (hmem x).mp hx with h1 | h1
        · exact hseqInMap x h1
        · exact absurd (h1 ▸ rfl) hxs
    · intro x y hy
      rw [htr] at hy
      exact ⟨(htracked x y hy).1, (hmem x).mpr (Or.inl (htracked x y hy).2)⟩
  | AddEntity e =>
    obtain ⟨es, hm, hE, hS, hsys, _, _, hcalls⟩ := Config.step_addEntity h
    rw [hents, Option.some.injEq] at hm
    subst hm
    constructor
    · rw [hE]; rfl
    · rw [hS]; exact hI.allocS
    · rw [hE]
      intro p hp
      rcases Entries.mem_set _ _ _ _ hp with h1 | h1
      · rw [h1]
      · exact hkeyedE p h1
    · rw [hS, hsmap]; exact hkeyedS
    · rw [hE]
      exact Entries.nodup_keys_set _ _ _ hnodupE
    · rw [hS, hsmap]; exact hnodupS
    · rw [hS, hsys, hsmap]; exact hmapInSeq
    · rw [hS, hsys, hsmap]; exact hseqInMap
    · intro x y hy
      rw [hsys]
      rw [hcalls, tracked_append] at hy
      cases hfm : firstMissing c.world.systemMap e.Requirements with
      | some R =>
        rw [hfm] at hy
        exact htracked x y hy
      | none =>
        rw [hfm] at hy
        rcases (mem_foldl_wireCalls x e y c.world.systems _).mp hy with h1 | ⟨h1, h2, h3⟩
        · exact htracked x y h1
        · rw [h1]
          exact ⟨h3, h2⟩
  | RemoveEntity e =>
    obtain ⟨hE, hS, hsys, _, _, hcalls⟩ := Config.step_removeEntity h
    rw [hents] at hE
    constructor
    · rw [hE]; rfl
    · rw [hS]; exact hI.allocS
    · rw [hE]
      intro p hp
      exact hkeyedE p ((Entries.mem_delete_iff _ _ _).mp hp).1
    · rw [hS, hsmap]; exact hkeyedS
    · rw [hE]
      exact Entries.nodup_keys_delete _ _ hnodupE
    · rw [hS, hsmap]; exact hnodupS
    · rw [hS, hsys, hsmap]; exact hmapInSeq
    · rw [hS, hsys, hsmap]; exact hseqInMap
    · intro x y hy
      rw [hsys]
      rw [hcalls, tracked_append] at hy
      exact htracked x y ((mem_foldl_unwireCalls x e y c.world.systems _).mp hy).1

theorem Config.inv_run {sortFn : List Systemer → List Systemer}
    (hperm : ∀ l, (sortFn l).Perm l) (numCPU : Nat) (ops : List Op) (c : Config)
    (h : Config.run sortFn (Config.init numCPU) ops = some c) : c.Inv :=
  Config.run_invariant sortFn Config.Inv (fun _ _ _ hI hs => Config.inv_step hperm hI hs)
    ops (Config.init numCPU) c (Config.inv_init numCPU) h

/-! ## Removal of an entity -/

/-- C7: after `RemoveEntity(E)` the entity map has no entry under `E.ID()`,
`RemoveEntity` has been invoked on exactly the systems of the sequence that E
requires, none of which tracks E any more; in a state reached from an
initialised empty world no entity with that ID is left in `Entities()` and no
system at all tracks E. -/
theorem removeEntity_unwires_and_deletes (w : World) (e : Entity) (calls : List SysCall) :
    (w.RemoveEntity e).1.entities.get? e.ID = none ∧
    (w.RemoveEntity e).2 = (w.Systems.filter (fun s => e.DoesRequire s.Type)).map
      (fun s => SysCall.RemoveEntity s e) ∧
    (∀ s ∈ w.Systems, e.DoesRequire s.Type = true →
      e ∉ tracked s (calls ++ (w.RemoveEntity e).2)) ∧
    (∀ sortFn numCPU ops, SortContract sortFn →
      Config.run sortFn (Config.init numCPU) ops = some { world := w, calls := calls } →
      (∀ y, some y ∈ (w.RemoveEntity e).1.Entities → y.ID ≠ e.ID) ∧
      ∀ s, e ∉ tracked s (calls ++ (w.RemoveEntity e).2)) := by
  refine ⟨?_, ?_, ?_, ?_⟩
  · cases hm : w.entities with
    | none => simp [World.RemoveEntity, GoMap.delete, GoMap.get?, hm]
    | some es => simp [World.RemoveEntity, GoMap.delete, GoMap.get?, hm, Entries.get?_delete_self]
  · simp [World.RemoveEntity, unwireCalls_eq, World.Systems]
  · intro s hs hreq hmem
    rw [tracked_append] at hmem
    exact ((mem_foldl_unwireCalls s e e w.systems _).mp hmem).2 ⟨rfl, hs, hreq⟩
  · intro sortFn numCPU ops hsort hrun
    have hI := Config.inv_run hsort.perm numCPU ops _ hrun
    constructor
    · intro y hy
      rw [World.Entities_eq, List.mem_map] at hy
      obtain ⟨z, hz, hzy⟩ := hy
      cases hzy
      obtain ⟨es, hes⟩ := Option.isSome_iff_exists.mp hI.allocE
      simp only at hes
      have hkeyed := hI.keyedE
      simp only [hes, GoMap.entries] at hkeyed
      simp only [World.RemoveEntity, GoMap.values, GoMap.entries, GoMap.delete, hes,
        List.mem_map] at hz
      obtain ⟨p, hp, hpz⟩ := hz
      obtain ⟨hp1, hp2⟩ := (Entries.mem_delete_iff _ _ _).mp hp
      rw [← hpz, ← hkeyed p hp1]
      exact hp2
    · intro s hmem
      rw [tracked_append] at hmem
      obtain ⟨h1, h2⟩ := (mem_foldl_unwireCalls s e e w.systems _).mp hmem
      obtain ⟨h3, h4⟩ := hI.trackedReq s e h1
      exact h2 ⟨rfl, h4, h3⟩

/-- Witness of C7: the player is removed from the world that holds it. -/
theorem removeEntity_unwires_and_deletes_witness :
    (∀ y, some y ∈ (sampleConfig.world.RemoveEntity samplePlayer).1.Entities →
        y.ID ≠ samplePlayer.ID) ∧
      ∀ s, samplePlayer ∉ tracked s
        (sampleConfig.calls ++ (sampleConfig.world.RemoveEntity samplePlayer).2) :=
  (removeEntity_unwires_and_deletes sampleConfig.world samplePlayer sampleConfig.calls).2.2.2
    stableSort 4 [Op.AddSystem sampleRender, Op.AddEntity samplePlayer] stableSort_contract
    (by decide)

/-! ## The presence map and the sequence -/

theorem Config.run_seq_exact {sortFn : List Systemer → List Systemer}
    (hperm : ∀ l, (sortFn l).Perm l) :
    ∀ (ops : List Op) (c c2 : Config), Config.run sortFn c ops = some c2 →
      ((c.world.systems ++ addedSystems ops).map Systemer.Type).Nodup →
      (∀ s ∈ c.world.systems, c.world.systemMap.get? s.Type = some s) →
      ∀ s ∈ c2.world.systems, c2.world.systemMap.get? s.Type = some s := by
  intro ops
  induction ops with
  | nil =>
    intro c c2 h _ hex
    rw [Config.run_nil h]
    exact hex
  | cons op rest ih =>
    intro c c2 h hnd hex
    obtain ⟨c1, hs, hr⟩ := Config.run_cons h
    cases op with
    | AddSystem s =>
      obtain ⟨es, hm, _, hS, hsys, _⟩ := Config.step_addSystem hs
      rw [addedSystems_cons_addSystem] at hnd
      have hp : (c1.world.systems ++ addedSystems rest).Perm
          (c.world.systems ++ s :: addedSystems rest) := by
        rw [hsys]
        have := (hperm (c.world.systems ++ [s])).append_right (addedSystems rest)
        simpa using this
      refine ih c1 c2 hr ((hp.map Systemer.Type).nodup_iff.mpr hnd) ?_
      intro x hx
      rw [hsys, (hperm _).mem_iff, List.mem_append, List.mem_singleton] at hx
      rw [hS]
      simp only [GoMap.get?]
      rcases hx with hx | hx
      · have hne : x.Type ≠ s.Type := by
          intro heq
          rw [List.map_append, List.nodup_append] at hnd
          exact hnd.2.2 (List.mem_map_of_mem Systemer.Type hx)
            (heq ▸ List.mem_map_of_mem Systemer.Type (List.mem_cons_self s _))
        rw [Entries.get?_set_other _ _ _ _ hne]
        have := hex x hx
        simpa [hm, GoMap.get?] using this
      · rw [hx, Entries.get?_set_self]
    | AddEntity e =>
      obtain ⟨_, _, _, hS, hsys, _⟩ := Config.step_addEntity hs
      rw [addedSystems_cons_addEntity] at hnd
      exact ih c1 c2 hr (by rw [hsys]; exact hnd) (by rw [hsys, hS]; exact hex)
    | RemoveEntity e =>
      obtain ⟨_, hS, hsys, _⟩ := Config.step_removeEntity hs
      rw [addedSystems_cons_removeEntity] at hnd
      exact ih c1 c2 hr (by rw [hsys]; exact hnd) (by rw [hsys, hS]; exact hex)

/-- C8, as amended: in every state reached from an initialised empty world,
every value of the presence map is an element of `Systems()` and every
element S of `Systems()` has `S.Type()` as a key of the presence map; the
value stored under that key is S itself when no two added systems share a
`Type()`. -/
theorem presence_map_covers_sequence (sortFn : List Systemer → List Systemer)
    (hsort : SortContract sortFn) (numCPU : Nat) (ops : List Op) :
    ∃ c, Config.run sortFn (Config.init numCPU) ops = some c ∧
      (∀ s ∈ c.world.systemMap.values, s ∈ c.world.Systems) ∧
      (∀ s ∈ c.world.Systems, c.world.HasSystem s.Type = true) ∧
      (((addedSystems ops).map Systemer.Type).Nodup →
        ∀ s ∈ c.world.Systems, c.world.systemMap.get? s.Type = some s) := by
  obtain ⟨c, hc⟩ := Config.run_init_total sortFn numCPU ops
  have hI := Config.inv_run hsort.perm numCPU ops c hc
  refine ⟨c, hc, ?_, ?_, ?_⟩
  · intro s hs
    simp only [GoMap.values, List.mem_map] at hs
    obtain ⟨p, hp, hps⟩ := hs
    rw [← hps]
    exact hI.mapInSeq p hp
  · intro s hs
    exact hI.seqInMap s hs
  · intro hnd
    refine Config.run_seq_exact hsort.perm ops (Config.init numCPU) c hc ?_ ?_
    · simpa [Config.init, World.New, World.zero] using hnd
    · intro s hs
      simp [Config.init, World.New, World.zero] at hs

/-- Witness of C8 as amended: two systems of different types. -/
theorem presence_map_covers_sequence_witness :
    ∃ c, Config.run stableSort (Config.init 4)
        [Op.AddSystem sampleS1, Op.AddSystem sampleS2] = some c ∧
      (∀ s ∈ c.world.systemMap.values, s ∈ c.world.Systems) ∧
      (∀ s ∈ c.world.Systems, c.world.HasSystem s.Type = true) ∧
      (∀ s ∈ c.world.Systems, c.world.systemMap.get? s.Type = some s) :=
  let ⟨c, h1, h2, h3, h4⟩ := presence_map_covers_sequence stableSort stableSort_contract 4
    [Op.AddSystem sampleS1, Op.AddSystem sampleS2]
  ⟨c, h1, h2, h3, h4 (by decide)⟩

/-- C8 as stated fails: after adding two systems of type render, the first is
an element of `Systems()` but the presence map holds the second under its type. -/
theorem presence_map_misses_replaced_system :
    ∃ c, Config.run stableSort (Config.init 4)
        [Op.AddSystem sampleRender, Op.AddSystem sampleRender2] = some c ∧
      sampleRender ∈ c.world.Systems ∧
      c.world.systemMap.get? sampleRender.Type = some sampleRender2 ∧
      c.world.systemMap.get? sampleRender.Type ≠ some sampleRender :=
  ⟨{ world := { entities := some [], systemMap := some [("render", sampleRender2)],
                systems := [sampleRender, sampleRender2], isSetup := true, serial := false },
     calls := [SysCall.New sampleRender, SysCall.New sampleRender2] },
   by decide, by decide, by decide, by decide⟩

/-! ## Wiring of entities into systems -/

theorem Config.wired_init (numCPU : Nat) : (Config.init numCPU).Wired := by
  constructor <;> simp [Config.init, World.New, World.zero, GoMap.make, GoMap.entries]

theorem Config.wired_step {sortFn : List Systemer → List Systemer}
    (hperm : ∀ l, (sortFn l).Perm l) {c c1 : Config} {op : Op} (hI : c.Inv) (hW : c.Wired)
    (hadm : op.admissible c = true) (h : c.step sortFn op = some c1) : c1.Wired := by
  obtain ⟨ents, hents⟩ := Option.isSome_iff_exists.mp hI.allocE
  obtain ⟨smap, hsmap⟩ := Option.isSome_iff_exists.mp hI.allocS
  have hkeyedE := hI.keyedE
  have hwired := hW.wired
  have hreg := hW.registered
  simp only [hents, GoMap.entries] at hkeyedE hwired hreg
  cases op with
  | AddSystem s =>
    obtain ⟨es, hm, hE, hS, hsys, _, _, hcalls⟩ := Config.step_addSystem h
    rw [hsmap, Option.some.injEq] at hm
    subst hm
    have hnew : c.world.systemMap.get? s.Type = none := by
      simp only [Op.admissible, World.HasSystem, Bool.not_eq_true'] at hadm
      cases hg : c.world.systemMap.get? s.Type with
      | none => rfl
      | some v => simp [hg] at hadm
    have htr : ∀ x, tracked x c1.calls = tracked x c.calls := by
      intro x
      rw [hcalls, tracked_append]
      rfl
    constructor
    · rw [hE, hents]
      intro p hp x hx hreq
      rw [htr]
      rw [hsys, (hperm _).mem_iff, List.mem_append, List.mem_singleton] at hx
      rcases hx with hx | hx
      · exact hwired p hp x hx hreq
      · subst hx
        have hr : x.Type ∈ p.2.Requirements := by
          simpa [Entity.DoesRequire, Entity.Requirements] using hreq
        have := hreg p hp x.Type hr
        rw [hnew] at this
        cases this
    · rw [hE, hents, hS]
      intro p hp r hr
      simp only [GoMap.get?]
      by_cases hrs : r = s.Type
      · rw [hrs, Entries.get?_set_self]; rfl
      · rw [Entries.get?_set_other _ _ _ _ hrs]
        have := hreg p hp r hr
        simpa [hsmap, GoMap.get?] using this
  | AddEntity e =>
    obtain ⟨es, hm, hE, hS, hsys, _, _, hcalls⟩ := Config.step_addEntity h
    rw [hents, Option.some.injEq] at hm
    subst hm
    have hfm : firstMissing c.world.systemMap e.Requirements = none := by
      simp only [Op.admissible, Option.isNone_iff_eq_none] at hadm
      exact hadm
    rw [hfm] at hcalls
    constructor
    · rw [hE, hsys]
      intro p hp x hx hreq
      rw [hcalls, tracked_append, mem_foldl_wireCalls]
      rcases Entries.mem_set _ _ _ _ hp with h1 | h1
      · rw [h1] at hreq ⊢
        exact Or.inr ⟨rfl, hx, hreq⟩
      · exact Or.inl (hwired p h1 x hx hreq)
    · rw [hE, hS]
      intro p hp r hr
      rcases Entries.mem_set _ _ _ _ hp with h1 | h1
      · rw [h1] at hr
        exact (firstMissing_eq_none_iff _ _).mp hfm r hr
      · exact hreg p h1 r hr
  | RemoveEntity e =>
    obtain ⟨hE, hS, hsys, _, _, hcalls⟩ := Config.step_removeEntity h
    rw [hents] at hE
    constructor
    · rw [hE, hsys]
      intro p hp x hx hreq
      obtain ⟨hp1, hp2⟩ := (Entries.mem_delete_iff _ _ _).mp hp
      rw [hcalls, tracked_append, mem_foldl_unwireCalls]
      refine ⟨hwired p hp1 x hx hreq, ?_⟩
      rintro ⟨hpe, _, _⟩
      rw [hkeyedE p hp1, hpe] at hp2
      exact hp2 rfl
    · rw [hE, hS]
      intro p hp r hr
      exact hreg p ((Entries.mem_delete_iff _ _ _).mp hp).1 r hr

theorem Config.wired_run {sortFn : List Systemer → List Systemer}
    (hperm : ∀ l, (sortFn l).Perm l) :
    ∀ (ops : List Op) (c c2 : Config), c.Inv → c.Wired →
      Config.disciplined sortFn c ops = true → Config.run sortFn c ops = some c2 →
      c2.Wired := by
  intro ops
  induction ops with
  | nil =>
    intro c c2 _ hW _ h
    rw [Config.run_nil h]
    exact hW
  | cons op rest ih =>
    intro c c2 hI hW hd h
    obtain ⟨c1, hs, hr⟩ := Config.run_cons h
    simp only [Config.disciplined, hs, Bool.and_eq_true] at hd
    exact ih c1 c2 (Config.inv_step hperm hI hs) (Config.wired_step hperm hI hW hd.1 hs)
      hd.2 hr

/-- C9, as amended: in every state reached from an initialised empty world a
system tracks an entity only if the entity's requirement list contains the
system's type; when every `AddSystem` registered a type not yet registered and
every `AddEntity` returned no error, each entity of the entity map is tracked
by a system of `Systems()` if and only if it requires the system's type. -/
theorem wired_iff_required (sortFn : List Systemer → List Systemer)
    (hsort : SortContract sortFn) (numCPU : Nat) (ops : List Op) :
    ∃ c, Config.run sortFn (Config.init numCPU) ops = some c ∧
      (∀ e s, e ∈ tracked s c.calls → s.Type ∈ e.Requirements) ∧
      (Config.disciplined sortFn (Config.init numCPU) ops = true →
        ∀ e ∈ c.world.entities.values, ∀ s ∈ c.world.Systems,
          (e ∈ tracked s c.calls ↔ s.Type ∈ e.Requirements)) := by
  obtain ⟨c, hc⟩ := Config.run_init_total sortFn numCPU ops
  have hI := Config.inv_run hsort.perm numCPU ops c hc
  have honly : ∀ e s, e ∈ tracked s c.calls → s.Type ∈ e.Requirements := by
    intro e s hes
    have := (hI.trackedReq s e hes).1
    simpa [Entity.DoesRequire, Entity.Requirements] using this
  refine ⟨c, hc, honly, ?_⟩
  intro hd e he s hs
  have hW := Config.wired_run hsort.perm ops (Config.init numCPU) c
    (Config.inv_init numCPU) (Config.wired_init numCPU) hd hc
  constructor
  · exact honly e s
  · intro hreq
    simp only [GoMap.values, List.mem_map] at he
    obtain ⟨p, hp, hpe⟩ := he
    rw [← hpe]
    refine hW.wired p hp s hs ?_
    rw [hpe]
    simpa [Entity.DoesRequire, Entity.Requirements] using hreq

/-- Witness of C9 as amended: the render system, then the player requiring it. -/
theorem wired_iff_required_witness :
    samplePlayer ∈ sampleConfig.world.entities.values ∧
    sampleRender ∈ sampleConfig.world.Systems ∧
    (samplePlayer ∈ tracked sampleRender sampleConfig.calls ↔
      sampleRender.Type ∈ samplePlayer.Requirements) := by
  obtain ⟨c, hc, _, h⟩ := wired_iff_required stableSort stableSort_contract 4
    [Op.AddSystem sampleRender, Op.AddEntity samplePlayer]
  have hrun : Config.run stableSort (Config.init 4)
      [Op.AddSystem sampleRender, Op.AddEntity samplePlayer] = some sampleConfig := by decide
  rw [hrun, Option.some.injEq] at hc
  subst hc
  exact ⟨by decide, by decide, h (by decide) samplePlayer (by decide) sampleRender (by decide)⟩

/-- C9 as stated fails: the player, admitted when one render system was
registered, is in the entity map and requires the type of the render system
added later, which is in `Systems()` and does not track it. -/
theorem late_system_does_not_track :
    ∃ c, Config.run stableSort (Config.init 4)
        [Op.AddSystem sampleRender, Op.AddEntity samplePlayer, Op.AddSystem sampleRender2]
        = some c ∧
      samplePlayer ∈ c.world.entities.values ∧ sampleRender2 ∈ c.world.Systems ∧
      sampleRender2.Type ∈ samplePlayer.Requirements ∧
      samplePlayer ∉ tracked sampleRender2 c.calls :=
  ⟨{ world := { entities := some [("e1", samplePlayer)],
                systemMap := some [("render", sampleRender2)],
                systems := [sampleRender, sampleRender2], isSetup := true, serial := false },
     calls := [SysCall.New sampleRender, SysCall.AddEntity sampleRender samplePlayer,
               SysCall.New sampleRender2] },
   by decide, by decide, by decide, by decide, by decide⟩

/-! ## Identifiers in the registries -/

theorem Entries.length_set_of_mem {V : Type} (m : Entries V) (k : String) (v : V)
    (hk : k ∈ m.map Prod.fst) : (m.set k v).length = m.length := by
  have := congrArg List.length (Entries.keys_set m k v)
  simpa [hk] using this

/-- C10, as amended: in every state reached from an initialised empty world
no two elements of `Entities()` have the same `ID()` and no key of the
presence map occurs twice; `Systems()` holds one element per `AddSystem`
call, so its types are pairwise distinct only when those of the added systems
are. Adding an entity whose ID is registered replaces the entry of the entity
map; adding a system whose type is registered replaces the entry of the
presence map and still makes the sequence one longer. -/
theorem registry_identifiers (sortFn : List Systemer → List Systemer)
    (hsort : SortContract sortFn) (numCPU : Nat) (ops : List Op) :
    ∃ c, Config.run sortFn (Config.init numCPU) ops = some c ∧
      (∃ es : List Entity, c.world.Entities = es.map some ∧ (es.map Entity.ID).Nodup) ∧
      c.world.systemMap.keys.Nodup ∧
      c.world.Systems.Perm (addedSystems ops) ∧
      (((addedSystems ops).map Systemer.Type).Nodup →
        (c.world.Systems.map Systemer.Type).Nodup) ∧
      (∀ e : Entity, (c.world.entities.get? e.ID).isSome = true →
        ∃ res, c.world.AddEntity e = some res ∧
          res.world.entities.len = c.world.entities.len ∧
          res.world.entities.get? e.ID = some e) ∧
      (∀ s : Systemer, c.world.HasSystem s.Type = true →
        ∃ w1 calls, c.world.AddSystem sortFn s = some (w1, calls) ∧
          w1.systemMap.len = c.world.systemMap.len ∧
          w1.systemMap.get? s.Type = some s ∧
          w1.Systems.length = c.world.Systems.length + 1) := by
  obtain ⟨c, hc⟩ := Config.run_init_total sortFn numCPU ops
  have hI := Config.inv_run hsort.perm numCPU ops c hc
  have hperm := Config.run_systems_perm hsort.perm ops (Config.init numCPU) c hc
  have hperm2 : c.world.systems.Perm (addedSystems ops) := by
    simpa [Config.init, World.New, World.zero] using hperm
  obtain ⟨ents, hents⟩ := Option.isSome_iff_exists.mp hI.allocE
  obtain ⟨smap, hsmap⟩ := Option.isSome_iff_exists.mp hI.allocS
  refine ⟨c, hc, ⟨c.world.entities.values, World.Entities_eq _, ?_⟩, hI.nodupS, hperm2, ?_,
    ?_, ?_⟩
  · have hkeys : c.world.entities.values.map Entity.ID = c.world.entities.keys := by
      simp only [GoMap.values, GoMap.keys, List.map_map]
      apply List.map_congr_left
      intro p hp
      exact (hI.keyedE p hp).symm
    rw [hkeys]
    exact hI.nodupE
  · intro hnd
    exact ((hperm2.map Systemer.Type).nodup_iff).mpr hnd
  · intro e he
    cases hfm : firstMissing c.world.systemMap e.Requirements with
    | none =>
      refine ⟨{ world := { c.world with entities := some (ents.set e.ID e) }, err := none,
                calls := wireCalls e c.world.systems }, ?_, ?_, ?_⟩
      · simp [World.AddEntity, GoMap.set, hents, hfm]
      · simp only [GoMap.len, GoMap.entries, hents]
        exact Entries.length_set_of_mem _ _ _
          ((Entries.get?_isSome_iff _ _).mp (by simpa [hents, GoMap.get?] using he))
      · simp [GoMap.get?, Entries.get?_set_self]
    | some R =>
      refine ⟨{ world := { c.world with entities := some (ents.set e.ID e) },
                err := some { Msg := R }, calls := [] }, ?_, ?_, ?_⟩
      · simp [World.AddEntity, GoMap.set, hents, hfm]
      · simp only [GoMap.len, GoMap.entries, hents]
        exact Entries.length_set_of_mem _ _ _
          ((Entries.get?_isSome_iff _ _).mp (by simpa [hents, GoMap.get?] using he))
      · simp [GoMap.get?, Entries.get?_set_self]
  · intro s hs
    refine ⟨{ c.world with systems := sortFn (c.world.systems ++ [s]),
                           systemMap := some (smap.set s.Type s) }, [SysCall.New s], ?_, ?_,
      ?_, ?_⟩
    · simp [World.AddSystem, GoMap.set, hsmap]
    · simp only [GoMap.len, GoMap.entries, hsmap]
      exact Entries.length_set_of_mem _ _ _
        ((Entries.get?_isSome_iff _ _).mp (by simpa [World.HasSystem, hsmap, GoMap.get?] using hs))
    · simp [GoMap.get?, Entries.get?_set_self]
    · simp [World.Systems, (hsort.perm _).length_eq]

/-- Witness of C10 as amended: two systems of different types and the player. -/
theorem registry_identifiers_witness :
    (((addedSystems [Op.AddSystem sampleRender, Op.AddEntity samplePlayer]).map
        Systemer.Type).Nodup →
      (sampleConfig.world.Systems.map Systemer.Type).Nodup) ∧
    (∃ res, sampleConfig.world.AddEntity samplePlayer = some res ∧
      res.world.entities.len = sampleConfig.world.entities.len ∧
      res.world.entities.get? samplePlayer.ID = some samplePlayer) ∧
    (∃ w1 calls, sampleConfig.world.AddSystem stableSort sampleRender2 = some (w1, calls) ∧
      w1.systemMap.len = sampleConfig.world.systemMap.len ∧
      w1.systemMap.get? sampleRender2.Type = some sampleRender2 ∧
      w1.Systems.length = sampleConfig.world.Systems.length + 1) := by
  obtain ⟨c, hc, _, _, _, h4, h5, h6⟩ := registry_identifiers stableSort stableSort_contract 4
    [Op.AddSystem sampleRender, Op.AddEntity samplePlayer]
  have hrun : Config.run stableSort (Config.init 4)
      [Op.AddSystem sampleRender, Op.AddEntity samplePlayer] = some sampleConfig := by decide
  rw [hrun, Option.some.injEq] at hc
  subst hc
  exact ⟨h4, h5 samplePlayer (by decide), h6 sampleRender2 (by decide)⟩

/-- C10 as stated fails: after adding two systems of type render, `Systems()`
has two elements with the same `Type()`. -/
theorem systems_repeat_a_type :
    ∃ c, Config.run stableSort (Config.init 4)
        [Op.AddSystem sampleRender, Op.AddSystem sampleRender2] = some c ∧
      c.world.Systems = [sampleRender, sampleRender2] ∧
      sampleRender.Type = sampleRender2.Type ∧
      ¬ (c.world.Systems.map Systemer.Type).Nodup :=
  ⟨{ world := { entities := some [], systemMap := some [("render", sampleRender2)],
                systems := [sampleRender, sampleRender2], isSetup := true, serial := false },
     calls := [SysCall.New sampleRender, SysCall.New sampleRender2] },
   by decide, by decide, by decide, by decide⟩

/-! ## The presence query -/

theorem World.hasSystem_after_addSystem (sortFn : List Systemer → List Systemer) (w : World)
    (s : Systemer) (h : w.systemMap.isSome = true) :
    ∃ w1 calls, w.AddSystem sortFn s = some (w1, calls) ∧
      w1.HasSystem s.Type = true ∧
      ∀ t, t ≠ s.Type → w1.HasSystem t = w.HasSystem t := by
  obtain ⟨es, hes⟩ := Option.isSome_iff_exists.mp h
  refine ⟨{ w with systems := sortFn (w.systems ++ [s]),
                   systemMap := some (es.set s.Type s) }, [SysCall.New s], ?_, ?_, ?_⟩
  · simp [World.AddSystem, GoMap.set, hes]
  · simp [World.HasSystem, GoMap.get?, Entries.get?_set_self]
  · intro t ht
    simp [World.HasSystem, GoMap.get?, hes, Entries.get?_set_other _ _ _ _ ht]

theorem Config.run_hasSystem {sortFn : List Systemer → List Systemer} (t : String) :
    ∀ (ops : List Op) (c c2 : Config), Config.run sortFn c ops = some c2 →
      (c2.world.HasSystem t = true ↔
        c.world.HasSystem t = true ∨ ∃ s ∈ addedSystems ops, s.Type = t) := by
  intro ops
  induction ops with
  | nil =>
    intro c c2 h
    rw [Config.run_nil h]
    simp [addedSystems]
  | cons op rest ih =>
    intro c c2 h
    obtain ⟨c1, hs, hr⟩ := Config.run_cons h
    rw [ih c1 c2 hr]
    cases op with
    | AddSystem s =>
      obtain ⟨es, hm, _, hS, _⟩ := Config.step_addSystem hs
      rw [addedSystems_cons_addSystem]
      have h1 : c1.world.HasSystem t = true ↔ c.world.HasSystem t = true ∨ s.Type = t := by
        by_cases hts : t = s.Type
        · subst hts
          simp [World.HasSystem, hS, GoMap.get?, Entries.get?_set_self]
        · have hts2 : ¬ s.Type = t := fun e => hts e.symm
          simp [World.HasSystem, hS, hm, GoMap.get?, Entries.get?_set_other _ _ _ _ hts, hts2]
      rw [h1]
      simp only [List.mem_cons, exists_eq_or_imp]
      tauto
    | AddEntity e =>
      obtain ⟨_, _, _, hS, _⟩ := Config.step_addEntity hs
      rw [addedSystems_cons_addEntity]
      simp [World.HasSystem, hS]
    | RemoveEntity e =>
      obtain ⟨_, hS, _⟩ := Config.step_removeEntity hs
      rw [addedSystems_cons_removeEntity]
      simp [World.HasSystem, hS]

/-- C11: in every state reached from an initialised empty world, `HasSystem(t)`
is true exactly when some earlier `AddSystem` call registered a system of type
t; on an initialised world `AddSystem(S)` makes it true for `S.Type()` and
leaves its result for every other t as it was. `HasSystem` reads the presence
map and assigns nothing, so it yields the Boolean only. -/
theorem hasSystem_iff_registered (sortFn : List Systemer → List Systemer) (numCPU : Nat)
    (ops : List Op) (t : String) :
    (∃ c, Config.run sortFn (Config.init numCPU) ops = some c ∧
      (c.world.HasSystem t = true ↔ ∃ s ∈ addedSystems ops, s.Type = t)) ∧
    (∀ (w : World) (s : Systemer), w.Initialised →
      ∃ w1 calls, w.AddSystem sortFn s = some (w1, calls) ∧
        w1.HasSystem s.Type = true ∧
        ∀ t1, t1 ≠ s.Type → w1.HasSystem t1 = w.HasSystem t1) := by
  constructor
  · obtain ⟨c, hc⟩ := Config.run_init_total sortFn numCPU ops
    refine ⟨c, hc, ?_⟩
    rw [Config.run_hasSystem t ops (Config.init numCPU) c hc]
    simp [Config.init, World.New, World.zero, World.HasSystem, GoMap.make, GoMap.get?,
      Entries.get?]
  · intro w s hinit
    exact World.hasSystem_after_addSystem sortFn w s hinit.2.2

/-- Witness of C11: the sample world gets a second system, of type physics. -/
theorem hasSystem_iff_registered_witness :
    ∃ w1 calls, sampleWorld.AddSystem stableSort sampleS1 = some (w1, calls) ∧
      w1.HasSystem sampleS1.Type = true ∧
      ∀ t1, t1 ≠ sampleS1.Type → w1.HasSystem t1 = sampleWorld.HasSystem t1 :=
  (hasSystem_iff_registered stableSort 4 [] "render").2 sampleWorld sampleS1 ⟨rfl, rfl, rfl⟩

/-! ## Removal of an absent entity -/

/-- C12: for every world, nil maps included, and every entity whose ID is no
key of the entity map, `RemoveEntity` leaves the world, with its entity map,
system sequence and presence map, exactly as it was. -/
theorem removeEntity_absent_is_noop (w : World) (e : Entity)
    (habsent : w.entities.get? e.ID = none) :
    (w.RemoveEntity e).1 = w ∧
    (w.RemoveEntity e).1.entities = w.entities ∧
    (w.RemoveEntity e).1.Systems = w.Systems ∧
    (w.RemoveEntity e).1.systemMap = w.systemMap := by
  have hdel : w.entities.delete e.ID = w.entities := by
    cases hm : w.entities with
    | none => rfl
    | some es =>
      rw [hm] at habsent
      simp only [GoMap.get?] at habsent
      simp only [GoMap.delete]
      rw [Entries.delete_of_not_mem _ _ ((Entries.get?_eq_none_iff _ _).mp habsent)]
  have hw : (w.RemoveEntity e).1 = w := by
    cases w
    simp only [World.RemoveEntity] at hdel ⊢
    rw [hdel]
  exact ⟨hw, by rw [hw], by rw [hw], by rw [hw]⟩

/-- Witness of C12: the player is not in the sample world. -/
theorem removeEntity_absent_is_noop_witness :
    (sampleWorld.RemoveEntity samplePlayer).1 = sampleWorld ∧
    (sampleWorld.RemoveEntity samplePlayer).1.entities = sampleWorld.entities ∧
    (sampleWorld.RemoveEntity samplePlayer).1.Systems = sampleWorld.Systems ∧
    (sampleWorld.RemoveEntity samplePlayer).1.systemMap = sampleWorld.systemMap :=
  removeEntity_absent_is_noop sampleWorld samplePlayer (by decide)

/-! ## Initialisation -/

theorem Config.run_isSetup {sortFn : List Systemer → List Systemer} :
    ∀ (ops : List Op) (c c2 : Config), Config.run sortFn c ops = some c2 →
      c2.world.isSetup = c.world.isSetup :=
  fun ops c c2 h =>
    (Config.run_invariant sortFn (fun x => x.world.isSetup = c.world.isSetup)
      (fun c0 op c1 hP hs => by
        cases op with
        | AddSystem s =>
          obtain ⟨_, _, _, _, _, h5, _⟩ := Config.step_addSystem hs
          exact h5.trans hP
        | AddEntity e =>
          obtain ⟨_, _, _, _, _, h5, _⟩ := Config.step_addEntity hs
          exact h5.trans hP
        | RemoveEntity e =>
          obtain ⟨_, _, _, h5, _⟩ := Config.step_removeEntity hs
          exact h5.trans hP)
      ops c c2 rfl h)

/-- C13: `New` on a world whose `isSetup` is true returns the world as it is,
entity map, presence map, system sequence, serial flag and `isSetup` included;
so a second `New` changes nothing, and neither does `New` in any state reached
from an initialised empty world by `AddSystem`, `AddEntity` and `RemoveEntity`. -/
theorem new_is_idempotent (numCPU : Nat) :
    (∀ w : World, w.isSetup = true → World.New numCPU w = w) ∧
    (∀ (n : Nat) (w : World), World.New numCPU (World.New n w) = World.New n w) ∧
    (∀ (sortFn : List Systemer → List Systemer) (n : Nat) (ops : List Op),
      ∃ c, Config.run sortFn (Config.init n) ops = some c ∧
        World.New numCPU c.world = c.world) := by
  have h1 : ∀ w : World, w.isSetup = true → World.New numCPU w = w := by
    intro w hw
    simp [World.New, hw]
  refine ⟨h1, ?_, ?_⟩
  · intro n w
    apply h1
    by_cases hw : w.isSetup = true
    · simp [World.New, hw]
    · simp [World.New, hw]
  · intro sortFn n ops
    obtain ⟨c, hc⟩ := Config.run_init_total sortFn n ops
    refine ⟨c, hc, h1 _ ?_⟩
    rw [Config.run_isSetup ops (Config.init n) c hc]
    rfl

/-- Witness of C13: `New` with one CPU on the sample world, set up with several. -/
theorem new_is_idempotent_witness :
    World.New 1 sampleConfig.world = sampleConfig.world ∧
    World.New 1 (World.New 4 World.zero) = World.New 4 World.zero :=
  ⟨(new_is_idempotent 1).1 sampleConfig.world rfl, (new_is_idempotent 1).2.1 4 World.zero⟩

/-! ## The list of entities -/

theorem fillEntities_from_empty (es : Entries Entity) :
    fillEntities es 0 (List.replicate es.length none) = es.map (fun p => some p.2) := by
  have := fillEntities_eq es []
  simpa using this

/-- C15: for every world, `Entities()` has as many elements as the entity map
has keys, holds exactly the values of the map, each entry once, and no nil
slot; this is so whatever order the `range` over the map visits the entries in. -/
theorem entities_lists_map_values (w : World) :
    w.Entities.length = w.entities.keys.length ∧
    w.Entities.length = w.entities.len ∧
    w.Entities.Perm (w.entities.values.map some) ∧
    none ∉ w.Entities ∧
    (∀ visit : Entries Entity, visit.Perm w.entities.entries →
      (fillEntities visit 0 (List.replicate w.entities.len none)).length = w.entities.len ∧
      (fillEntities visit 0 (List.replicate w.entities.len none)).Perm
        (w.entities.values.map some) ∧
      none ∉ fillEntities visit 0 (List.replicate w.entities.len none)) := by
  have hE := World.Entities_eq w
  refine ⟨?_, ?_, ?_, ?_, ?_⟩
  · simp [hE, GoMap.values, GoMap.keys]
  · simp [hE, GoMap.values, GoMap.len]
  · rw [hE]
  · rw [hE]
    simp
  · intro visit hv
    have hlen : w.entities.len = visit.length := by
      simp [GoMap.len, hv.length_eq]
    rw [hlen, fillEntities_from_empty]
    refine ⟨by simp, ?_, by simp⟩
    have := hv.map (fun p : String × Entity => some p.2)
    simpa [GoMap.values, List.map_map, Function.comp_def] using this

/-- Witness of C15: a map of two entities visited last entry first. -/
theorem entities_lists_map_values_witness :
    (fillEntities [("e2", ⟨8, "e2", []⟩), ("e1", samplePlayer)] 0
        (List.replicate
          (GoMap.len (some [("e1", samplePlayer), ("e2", ⟨8, "e2", []⟩)])) none)).length =
      GoMap.len (some [("e1", samplePlayer), ("e2", ⟨8, "e2", []⟩)]) ∧
    (fillEntities [("e2", ⟨8, "e2", []⟩), ("e1", samplePlayer)] 0
        (List.replicate
          (GoMap.len (some [("e1", samplePlayer), ("e2", ⟨8, "e2", []⟩)])) none)).Perm
      ((GoMap.values (some [("e1", samplePlayer), ("e2", ⟨8, "e2", []⟩)])).map some) ∧
    none ∉ fillEntities [("e2", ⟨8, "e2", []⟩), ("e1", samplePlayer)] 0
        (List.replicate
          (GoMap.len (some [("e1", samplePlayer), ("e2", ⟨8, "e2", []⟩)])) none) :=
  (entities_lists_map_values
      { entities := some [("e1", samplePlayer), ("e2", ⟨8, "e2", []⟩)],
        systemMap := some [], systems := [], isSetup := true, serial := false }).2.2.2.2
    [("e2", ⟨8, "e2", []⟩), ("e1", samplePlayer)] (List.Perm.swap _ _ [])

/-! ## Admission followed by removal -/

theorem Entries.delete_set_of_not_mem {V : Type} (m : Entries V) (k : String) (v : V)
    (h : k ∉ m.map Prod.fst) : (m.set k v).delete k = m := by
  induction m with
  | nil => simp [Entries.set, Entries.delete]
  | cons p rest ih =>
    obtain ⟨k1, v1⟩ := p
    simp only [List.map_cons, List.mem_cons, not_or] at h
    have hk : ¬ k1 = k := fun e => h.1 e.symm
    have ih1 := ih h.2
    unfold Entries.delete at ih1 ⊢
    simp only [Entries.set, hk, if_false]
    rw [List.filter_cons_of_pos (by simpa using hk), ih1]

theorem World.addEntity_eq_none_iff (w : World) (e : Entity) :
    w.AddEntity e = none ↔ w.entities = none := by
  cases hm : w.entities with
  | none => simp [World.AddEntity, GoMap.set, hm]
  | some es =>
    cases hfm : firstMissing w.systemMap e.Requirements <;>
      simp [World.AddEntity, GoMap.set, hm, hfm]

theorem World.addEntity_entities (w : World) (e : Entity) (es : Entries Entity)
    (hm : w.entities = some es) :
    ∃ res, w.AddEntity e = some res ∧ res.world.entities = some (es.set e.ID e) ∧
      res.world.systems = w.systems ∧ res.world.systemMap = w.systemMap ∧
      (res.err = none ↔ firstMissing w.systemMap e.Requirements = none) := by
  cases hfm : firstMissing w.systemMap e.Requirements with
  | none =>
    exact ⟨{ world := { w with entities := some (es.set e.ID e) }, err := none,
             calls := wireCalls e w.systems },
      by simp [World.AddEntity, GoMap.set, hm, hfm], rfl, rfl, rfl, by simp⟩
  | some R =>
    exact ⟨{ world := { w with entities := some (es.set e.ID e) },
             err := some { Msg := R }, calls := [] },
      by simp [World.AddEntity, GoMap.set, hm, hfm], rfl, rfl, rfl, by simp⟩

/-- C16: for every world and every entity E whose ID is no key of the entity
map, the entity map after `AddEntity(E)` followed by `RemoveEntity(E)` equals
the original one, whether the admission succeeded, returned `UnmetRequirement`
or, on a nil entity map, panicked before writing anything; with the map
allocated the admission returns and E is in the map in between. -/
theorem add_then_remove_restores_entity_map (w : World) (e : Entity)
    (habsent : w.entities.get? e.ID = none) :
    ((w.afterAddEntity e).RemoveEntity e).1.entities = w.entities ∧
    (w.entities.isSome = true →
      ∃ res, w.AddEntity e = some res ∧ res.world.entities.get? e.ID = some e ∧
        (res.world.RemoveEntity e).1.entities = w.entities) ∧
    (w.entities = none → w.AddEntity e = none) := by
  have hsome : ∀ es, w.entities = some es →
      ∃ res, w.AddEntity e = some res ∧ res.world.entities.get? e.ID = some e ∧
        (res.world.RemoveEntity e).1.entities = w.entities := by
    intro es hm
    obtain ⟨res, h1, h2, _⟩ := World.addEntity_entities w e es hm
    refine ⟨res, h1, ?_, ?_⟩
    · rw [h2]
      simp [GoMap.get?, Entries.get?_set_self]
    · rw [hm] at habsent
      simp only [GoMap.get?] at habsent
      simp only [World.RemoveEntity, h2, GoMap.delete, hm]
      rw [Entries.delete_set_of_not_mem _ _ _ ((Entries.get?_eq_none_iff _ _).mp habsent)]
  refine ⟨?_, ?_, ?_⟩
  · cases hm : w.entities with
    | none =>
      have hnone := (World.addEntity_eq_none_iff w e).mpr hm
      simp [World.afterAddEntity, hnone, World.RemoveEntity, hm, GoMap.delete]
    | some es =>
      obtain ⟨res, h1, _, h3⟩ := hsome es hm
      simp only [World.afterAddEntity, h1]
      rw [h3, hm]
  · intro h
    obtain ⟨es, hes⟩ := Option.isSome_iff_exists.mp h
    exact hsome es hes
  · intro h
    exact (World.addEntity_eq_none_iff w e).mpr h

/-- Witness of C16: the player is admitted to the sample world and removed again. -/
theorem add_then_remove_restores_entity_map_witness :
    ((sampleWorld.afterAddEntity samplePlayer).RemoveEntity samplePlayer).1.entities =
      sampleWorld.entities ∧
    ∃ res, sampleWorld.AddEntity samplePlayer = some res ∧
      res.world.entities.get? samplePlayer.ID = some samplePlayer ∧
      (res.world.RemoveEntity samplePlayer).1.entities = sampleWorld.entities :=
  ⟨(add_then_remove_restores_entity_map sampleWorld samplePlayer (by decide)).1,
   (add_then_remove_restores_entity_map sampleWorld samplePlayer (by decide)).2.1 rfl⟩

/-! ## What a registry call leaves alone -/

theorem World.addSystem_eq_none_iff (sortFn : List Systemer → List Systemer) (w : World)
    (s : Systemer) : w.AddSystem sortFn s = none ↔ w.systemMap = none := by
  cases hm : w.systemMap with
  | none => simp [World.AddSystem, GoMap.set, hm]
  | some es => simp [World.AddSystem, GoMap.set, hm]

theorem World.addSystem_eq_some (sortFn : List Systemer → List Systemer) (w : World)
    (s : Systemer) (es : Entries Systemer) (hm : w.systemMap = some es) :
    w.AddSystem sortFn s =
      some ({ w with systems := sortFn (w.systems ++ [s]),
                     systemMap := some (es.set s.Type s) }, [SysCall.New s]) := by
  simp [World.AddSystem, GoMap.set, hm]

theorem World.afterAddSystem_systems (sortFn : List Systemer → List Systemer) (w : World)
    (s : Systemer) :
    (w.afterAddSystem sortFn s).systems =
      match w.systemMap with
      | some _ => sortFn (w.systems ++ [s])
      | none => w.systems ++ [s] := by
  cases hm : w.systemMap with
  | none =>
    have := (World.addSystem_eq_none_iff sortFn w s).mpr hm
    simp [World.afterAddSystem, this]
  | some es =>
    simp [World.afterAddSystem, World.addSystem_eq_some sortFn w s es hm]

/-- C17: for every world and system S, the system sequence `AddSystem(S)`
leaves is a permutation of the sequence before the call with S appended: it
is one longer and holds every system as often as before, S once more. With
the presence map allocated the call returns that world and calls `New` on S. -/
theorem addSystem_permutes_sequence (sortFn : List Systemer → List Systemer)
    (hsort : SortContract sortFn) (w : World) (s : Systemer) :
    (w.afterAddSystem sortFn s).Systems.Perm (w.Systems ++ [s]) ∧
    (w.afterAddSystem sortFn s).Systems.length = w.Systems.length + 1 ∧
    (∀ x, (w.afterAddSystem sortFn s).Systems.count x =
      w.Systems.count x + if x = s then 1 else 0) ∧
    (w.systemMap.isSome = true →
      w.AddSystem sortFn s = some (w.afterAddSystem sortFn s, [SysCall.New s])) := by
  have hperm : (w.afterAddSystem sortFn s).Systems.Perm (w.Systems ++ [s]) := by
    simp only [World.Systems, World.afterAddSystem_systems]
    cases w.systemMap with
    | none => exact List.Perm.refl _
    | some es => exact hsort.perm _
  refine ⟨hperm, ?_, ?_, ?_⟩
  · rw [hperm.length_eq]
    simp
  · intro x
    rw [hperm.count_eq, List.count_append, List.count_singleton]
    by_cases hx : x = s
    · simp [hx]
    · have hx2 : ¬ s = x := fun e => hx e.symm
      simp [hx, hx2]
  · intro h
    obtain ⟨es, hes⟩ := Option.isSome_iff_exists.mp h
    simp [World.afterAddSystem, World.addSystem_eq_some sortFn w s es hes]

/-- Witness of C17: a second render system is added to the sample world. -/
theorem addSystem_permutes_sequence_witness :
    (sampleWorld.afterAddSystem stableSort sampleRender2).Systems.Perm
      (sampleWorld.Systems ++ [sampleRender2]) ∧
    (sampleWorld.afterAddSystem stableSort sampleRender2).Systems.length =
      sampleWorld.Systems.length + 1 ∧
    sampleWorld.AddSystem stableSort sampleRender2 =
      some (sampleWorld.afterAddSystem stableSort sampleRender2, [SysCall.New sampleRender2]) :=
  ⟨(addSystem_permutes_sequence stableSort stableSort_contract sampleWorld sampleRender2).1,
   (addSystem_permutes_sequence stableSort stableSort_contract sampleWorld sampleRender2).2.1,
   (addSystem_permutes_sequence stableSort stableSort_contract sampleWorld sampleRender2).2.2.2
     rfl⟩

/-- C18: `AddEntity` and `RemoveEntity` leave the system sequence and the
presence map as they were, so `Systems()` and `HasSystem` answer as before;
`AddSystem` leaves the entity map as it was and its only call on a system is
`New` on the added one, so no system tracks anything it did not track before. -/
theorem registry_calls_frame (sortFn : List Systemer → List Systemer) (w : World)
    (e : Entity) (s : Systemer) :
    ((w.afterAddEntity e).Systems = w.Systems ∧
      (w.afterAddEntity e).systemMap = w.systemMap ∧
      ∀ t, (w.afterAddEntity e).HasSystem t = w.HasSystem t) ∧
    ((w.RemoveEntity e).1.Systems = w.Systems ∧
      (w.RemoveEntity e).1.systemMap = w.systemMap ∧
      ∀ t, (w.RemoveEntity e).1.HasSystem t = w.HasSystem t) ∧
    (w.afterAddSystem sortFn s).entities = w.entities ∧
    (∀ w1 calls, w.AddSystem sortFn s = some (w1, calls) →
      w1.entities = w.entities ∧ calls = [SysCall.New s] ∧
      (∀ x y, SysCall.AddEntity x y ∉ calls) ∧
      ∀ x log, tracked x (log ++ calls) = tracked x log) ∧
    (w.entities.isSome = true → ∃ res, w.AddEntity e = some res ∧
      res.world = w.afterAddEntity e) ∧
    (w.systemMap.isSome = true → ∃ w1 calls, w.AddSystem sortFn s = some (w1, calls)) := by
  have hAE : (w.afterAddEntity e).systems = w.systems ∧
      (w.afterAddEntity e).systemMap = w.systemMap := by
    cases hm : w.entities with
    | none =>
      have := (World.addEntity_eq_none_iff w e).mpr hm
      simp [World.afterAddEntity, this]
    | some es =>
      obtain ⟨res, h1, _, h3, h4, _⟩ := World.addEntity_entities w e es hm
      simp only [World.afterAddEntity, h1]
      exact ⟨h3, h4⟩
  have hAS : (w.afterAddSystem sortFn s).entities = w.entities := by
    cases hm : w.systemMap with
    | none =>
      have := (World.addSystem_eq_none_iff sortFn w s).mpr hm
      simp [World.afterAddSystem, this]
    | some es =>
      simp [World.afterAddSystem, World.addSystem_eq_some sortFn w s es hm]
  refine ⟨⟨hAE.1, hAE.2, ?_⟩, ⟨rfl, rfl, fun _ => rfl⟩, hAS, ?_, ?_, ?_⟩
  · intro t
    simp [World.HasSystem, hAE.2]
  · intro w1 calls h
    cases hm : w.systemMap with
    | none =>
      rw [(World.addSystem_eq_none_iff sortFn w s).mpr hm] at h
      cases h
    | some es =>
      rw [World.addSystem_eq_some sortFn w s es hm] at h
      simp only [Option.some.injEq, Prod.mk.injEq] at h
      obtain ⟨h1, h2⟩ := h
      subst h1
      subst h2
      refine ⟨rfl, rfl, ?_, ?_⟩
      · intro x y hxy
        simp at hxy
      · intro x log
        rw [tracked_append]
        rfl
  · intro h
    obtain ⟨es, hes⟩ := Option.isSome_iff_exists.mp h
    obtain ⟨res, h1, _⟩ := World.addEntity_entities w e es hes
    exact ⟨res, h1, by simp [World.afterAddEntity, h1]⟩
  · intro h
    obtain ⟨es, hes⟩ := Option.isSome_iff_exists.mp h
    exact ⟨_, _, World.addSystem_eq_some sortFn w s es hes⟩

/-- Witness of C18: a second render system is added to the world that holds
the player; the entity map stays and the new system tracks nothing. -/
theorem registry_calls_frame_witness :
    ∃ w1 calls, sampleConfig.world.AddSystem stableSort sampleRender2 = some (w1, calls) ∧
      w1.entities = sampleConfig.world.entities ∧ calls = [SysCall.New sampleRender2] ∧
      tracked sampleRender2 (sampleConfig.calls ++ calls) = [] ∧
      samplePlayer ∈ w1.entities.values ∧ sampleRender2 ∈ w1.Systems :=
  let ⟨w1, calls, h⟩ :=
    (registry_calls_frame stableSort sampleConfig.world samplePlayer sampleRender2).2.2.2.2.2 rfl
  let ⟨h1, h2, _, h4⟩ :=
    (registry_calls_frame stableSort sampleConfig.world samplePlayer sampleRender2).2.2.2.1
      w1 calls h
  ⟨w1, calls, h, h1, h2, (h4 sampleRender2 sampleConfig.calls).trans (by decide),
    by rw [GoMap.values, h1]; decide,
    by
      have hs : sampleConfig.world.AddSystem stableSort sampleRender2 =
          some ({ sampleConfig.world with
                    systems := [sampleRender, sampleRender2],
                    systemMap := some [("render", sampleRender2)] },
                [SysCall.New sampleRender2]) := by decide
      rw [hs] at h
      simp only [Option.some.injEq, Prod.mk.injEq] at h
      rw [← h.1]
      decide⟩

end Ecs
